import Mathlib

/-!
# netmon: the socket-statistics parser and the join of `cmd/netmon/main.go`

A shallow embedding of `parseSSOutput` and of one refresh cycle of `main`.

Modelling conventions.

* A Go `string` is a `List Char`: the sequence of Unicode scalar values of a
  valid UTF-8 text.  Byte lengths (the scanner's buffer limit) are computed with
  `Char.utf8Size`.  The byte test `line[0] != ' '` is a test on the first
  character: a space and a tab are one-byte characters and no multi-byte
  character starts with their byte.
* A Go `map[string]connBytes` is an association list without repeated keys; a
  `nil` map is `none`.
* Indexing that would panic in Go (`line[0]`, `fields[i]`) yields `none`, and the
  functions that index return an `Option` whose `none` is the run-time panic.
* Standard output is the list of the texts written, one element per `Printf`.
  The default logger writes to standard error: it is kept apart in `log`.
* The library functions used by the program (`strings.TrimSpace`,
  `strings.Fields`, `strings.ToLower`, `strings.Contains`, `bufio.Scanner` with
  its default `ScanLines` split and default buffer, `fmt` padding) are modelled
  from their documented behaviour.  The Unicode lower-case table for characters
  outside ASCII is a parameter `tbl`.
-/

namespace Netmon

/-- Go `string`. -/
abbrev GoString := List Char

/-- The `connBytes` struct: rx and tx counters kept as strings. -/
structure connBytes where
  rx : GoString
  tx : GoString
deriving DecidableEq, Repr

/-- Go `map[string]connBytes` (non-nil). -/
abbrev StatsTable := List (GoString × connBytes)

/-- The table without its entry for the key `k`. -/
def mapDelete : StatsTable → GoString → StatsTable
  | [], _ => []
  | e :: rest, k => if e.1 = k then mapDelete rest k else e :: mapDelete rest k

/-- The assignment `m[k] = v`: the entry for `k` is replaced or added. -/
def mapSet (m : StatsTable) (k : GoString) (v : connBytes) : StatsTable :=
  (k, v) :: mapDelete m k

/-- The lookup `v, ok := m[k]`. -/
def mapGet (m : StatsTable) (k : GoString) : Option connBytes :=
  match m with
  | [] => none
  | e :: rest => if e.1 = k then some e.2 else mapGet rest k

/-- The errors `parseSSOutput` can return. -/
inductive GoError where
  | execError (msg : GoString)
  | ErrTooLong
deriving DecidableEq, Repr

/-- The method `Error()` behind the verb `%v`. -/
def GoError.Error : GoError → GoString
  | .execError msg => msg
  | .ErrTooLong => "bufio.Scanner: token too long".toList

/-! ## Library: `unicode`, `strings` -/

/-- The function `unicode.IsSpace`: the White_Space property. -/
def isSpace (r : Char) : Bool :=
  let n := r.toNat
  (0x09 ≤ n && n ≤ 0x0d) || n == 0x20 || n == 0x85 || n == 0xa0 || n == 0x1680 ||
  (0x2000 ≤ n && n ≤ 0x200a) || n == 0x2028 || n == 0x2029 || n == 0x202f ||
  n == 0x205f || n == 0x3000

/-- The function `strings.TrimSpace`: leading and trailing white space removed. -/
def TrimSpace (s : GoString) : GoString :=
  ((s.dropWhile isSpace).reverse.dropWhile isSpace).reverse

/-- The span loop of `strings.FieldsFunc`: `cur` is the field being read, reversed;
it is empty between fields. -/
def fieldsAux : GoString → GoString → List GoString
  | [], cur => if cur = [] then [] else [cur.reverse]
  | c :: s, cur =>
    if isSpace c then
      if cur = [] then fieldsAux s [] else cur.reverse :: fieldsAux s []
    else fieldsAux s (c :: cur)

/-- The function `strings.Fields`: the maximal runs of non-space characters. -/
def Fields (s : GoString) : List GoString := fieldsAux s []

/-- The function `unicode.ToLower`; `tbl` is the case table outside ASCII. -/
def unicodeToLower (tbl : Char → Char) (r : Char) : Char :=
  if r.toNat ≤ 127 then
    if 65 ≤ r.toNat ∧ r.toNat ≤ 90 then Char.ofNat (r.toNat + 32) else r
  else tbl r

/-- The function `strings.ToLower`. -/
def ToLower (tbl : Char → Char) (s : GoString) : GoString :=
  s.map (unicodeToLower tbl)

/-- Whether `p` is a prefix of `s` (`strings.HasPrefix`). -/
def HasPrefix : GoString → GoString → Bool
  | _, [] => true
  | [], _ :: _ => false
  | c :: s, d :: p => c == d && HasPrefix s p

/-- The function `strings.Contains`: `substr` occurs in `s`. -/
def Contains : GoString → GoString → Bool
  | [], substr => HasPrefix [] substr
  | c :: s, substr => HasPrefix (c :: s) substr || Contains s substr

/-! ## Library: `bufio.Scanner` -/

/-- The constant `bufio.MaxScanTokenSize`: the largest buffer of a default scanner. -/
def MaxScanTokenSize : Nat := 64 * 1024

/-- Length of a string in bytes. -/
def byteLen (s : GoString) : Nat := (s.map Char.utf8Size).sum

/-- The function `dropCR` of `bufio.ScanLines`: one trailing carriage return removed. -/
def dropCR (data : GoString) : GoString :=
  if data.getLast? = some '\r' then data.dropLast else data

/-- The loop `for scanner.Scan()` over a default scanner reading `rest`, where
`cur` (reversed) is the part of the current line already read: the lines delivered
by `scanner.Text()` and the final `scanner.Err()`.  A line is delivered when it,
with its newline, fits the buffer of `MaxScanTokenSize` bytes; a final line
without newline is delivered when the buffer has room left to observe the end of
input.  Otherwise the scan stops with `ErrTooLong`. -/
def scanAux : GoString → GoString → List GoString × Option GoError
  | [], cur =>
    if cur = [] then ([], none)
    else if MaxScanTokenSize ≤ byteLen cur then ([], some .ErrTooLong)
    else ([dropCR cur.reverse], none)
  | c :: rest, cur =>
    if c = '\n' then
      if MaxScanTokenSize ≤ byteLen cur then ([], some .ErrTooLong)
      else
        let r := scanAux rest []
        (dropCR cur.reverse :: r.1, r.2)
    else scanAux rest (c :: cur)

/-- The lines a default `bufio.Scanner` delivers for `out`, and its final error. -/
def scanLines (out : GoString) : List GoString × Option GoError := scanAux out []

/-! ## `parseSSOutput` -/

/-- The result of `exec.Command("ss", ...).Output()`: an error or the output text. -/
inductive CmdResult where
  | failed (err : GoString)
  | output (out : GoString)
deriving DecidableEq, Repr

/-- The variables of the scan loop of `parseSSOutput`, and what it has written to
standard output. -/
structure ParseState where
  data : StatsTable
  currentKey : GoString
  stdout : List GoString
deriving DecidableEq, Repr

/-- One iteration of the loop `for scanner.Scan()` of `parseSSOutput`, for the line
`scanner.Text()`; `none` is an index-out-of-range panic. -/
def parseLine (st : ParseState) (line : GoString) : Option ParseState :=
  if TrimSpace line = [] then some st
  else
    match line.get? 0 with
    | none => none
    | some b =>
      if b ≠ ' ' ∧ b ≠ '\t' then
        let fields := Fields line
        if fields.length < 5 then
          some { st with
            stdout := st.stdout ++
              ["Didn't find enough fields in line: ".toList ++ line ++ "\n".toList]
            currentKey := [] }
        else
          match fields[1]?, fields[2]?, fields[3]?, fields[4]? with
          | some recvq, some sendq, some laddr, some remote =>
            let currentKey := laddr ++ "->".toList ++ remote
            if currentKey ≠ [] then
              some { st with
                data := mapSet st.data currentKey { rx := recvq, tx := sendq }
                currentKey := currentKey }
            else some { st with currentKey := currentKey }
          | _, _, _, _ => none
      else some st

/-- The loop `for scanner.Scan()` over the lines the scanner delivers. -/
def parseLoop : List GoString → ParseState → Option ParseState
  | [], st => some st
  | line :: rest, st =>
    match parseLine st line with
    | none => none
    | some st1 => parseLoop rest st1

/-- The state before the loop: `data := make(map...)`, `var currentKey string`. -/
def initState : ParseState := { data := [], currentKey := [], stdout := [] }

/-- What a call of `parseSSOutput` returns and writes to standard output. -/
structure ParseResult where
  data : Option StatsTable
  err : Option GoError
  stdout : List GoString
deriving DecidableEq, Repr

/-- The function `parseSSOutput`, given the result of running the `ss` command;
`none` is a run-time panic. -/
def parseSSOutput (cmd : CmdResult) : Option ParseResult :=
  match cmd with
  | .failed err =>
    some { data := none, err := some (.execError err),
           stdout := ["Error running ss command: ".toList ++ err ++ "\n".toList] }
  | .output out =>
    let sc := scanLines out
    match parseLoop sc.1 initState with
    | none => none
    | some st => some { data := some st.data, err := sc.2, stdout := st.stdout }

/-! ## One refresh cycle of `main` -/

/-- The gopsutil `net.Addr`. -/
structure Addr where
  IP : GoString
  Port : Nat
deriving DecidableEq, Repr

/-- The gopsutil `net.ConnectionStat`, the fields `main` reads. -/
structure ConnectionStat where
  Laddr : Addr
  Raddr : Addr
  Status : GoString
deriving DecidableEq, Repr

/-- A gopsutil process as `main` observes it: `Pid`, the result of `Name()` and the
result of `Connections()`, where `none` is a returned error. -/
structure Process where
  Pid : Int
  Name : Option GoString
  Connections : Option (List ConnectionStat)
deriving DecidableEq, Repr

/-- The arguments of the `Printf` of one connection. -/
structure Row where
  pid : Int
  name : GoString
  laddr : GoString
  remote : GoString
  state : GoString
  rxVal : GoString
  txVal : GoString
deriving DecidableEq, Repr

/-- The verbs `%-Ns` and `%-Nd`: padded with spaces on the right to `w` characters. -/
def padRight (w : Nat) (s : GoString) : GoString :=
  s ++ List.replicate (w - s.length) ' '

/-- The format `"%-6s %-15s %-22s %-22s %-12s %-10s %-10s\n"` applied to seven texts. -/
def formatColumns (a b c d e f g : GoString) : GoString :=
  padRight 6 a ++ " ".toList ++ padRight 15 b ++ " ".toList ++ padRight 22 c ++
  " ".toList ++ padRight 22 d ++ " ".toList ++ padRight 12 e ++ " ".toList ++
  padRight 10 f ++ " ".toList ++ padRight 10 g ++ "\n".toList

/-- The header line written at the start of the table. -/
def headerRow : GoString :=
  formatColumns "PID".toList "Process".toList "Local Address".toList
    "Remote Address".toList "State".toList "Rx Bytes".toList "Tx Bytes".toList

/-- The line written for one connection. -/
def formatRow (r : Row) : GoString :=
  formatColumns (toString r.pid).toList r.name r.laddr r.remote r.state r.rxVal r.txVal

/-- The format `"%s:%d"` applied to an address. -/
def addrString (a : Addr) : GoString :=
  a.IP ++ ":".toList ++ (toString a.Port).toList

/-- The sentinel of a connection without statistics. -/
def NA : GoString := "N/A".toList

/-- The body of the loop over `conns`: the row of one connection. -/
def connRow (GOOS : GoString) (ssData : Option StatsTable) (pid : Int)
    (name : GoString) (conn : ConnectionStat) : Row :=
  let laddr := addrString conn.Laddr
  let remote := addrString conn.Raddr
  let vals : GoString × GoString :=
    if GOOS = "linux".toList then
      match ssData with
      | none => (NA, NA)
      | some m =>
        match mapGet m (laddr ++ "->".toList ++ remote) with
        | some v => (v.rx, v.tx)
        | none => (NA, NA)
    else (NA, NA)
  { pid := pid, name := name, laddr := laddr, remote := remote,
    state := conn.Status, rxVal := vals.1, txVal := vals.2 }

/-- The body of the loop over `procs`: the rows of one process. -/
def processRows (tbl : Char → Char) (GOOS : GoString) (ssData : Option StatsTable)
    (appName : GoString) (p : Process) : List Row :=
  match p.Name with
  | none => []
  | some name =>
    if !Contains (ToLower tbl name) (ToLower tbl appName) then []
    else
      match p.Connections with
      | none => []
      | some conns => conns.map (connRow GOOS ssData p.Pid name)

/-- What one refresh cycle does before it sleeps. -/
structure CycleResult where
  stdout : List GoString
  log : List GoString
  exited : Bool
deriving DecidableEq, Repr

/-- The table and the output of the first statement of the cycle: `parseSSOutput` is
called on Linux only. -/
def cycleStats (GOOS : GoString) (ss : CmdResult) : Option ParseResult :=
  if GOOS = "linux".toList then parseSSOutput ss
  else some { data := none, err := none, stdout := [] }

/-- The rows of a cycle, in the order they are written. -/
def cycleRows (tbl : Char → Char) (GOOS : GoString) (ssData : Option StatsTable)
    (appName : GoString) (procs : List Process) : List Row :=
  (procs.map (processRows tbl GOOS ssData appName)).flatten

/-- The result of `process.Processes()`: an error or the processes. -/
inductive ProcsResult where
  | failed (err : GoString)
  | ok (procs : List Process)
deriving DecidableEq, Repr

/-- One iteration of the loop of `main`, up to the call of `time.Sleep`: `ss` is
the result of the `ss` command, read on Linux only, `procs` the result of
`process.Processes()`, after whose error `log.Fatalf` ends the program; the
result `none` is a run-time panic.  The screen is cleared after the sleep, by
an external command: that is not part of the cycle. -/
def cycle (tbl : Char → Char) (GOOS : GoString) (ss : CmdResult)
    (procs : ProcsResult) (appName : GoString) : Option CycleResult :=
  match cycleStats GOOS ss with
  | none => none
  | some r =>
    let log : List GoString :=
      match r.err with
      | some e => ["Warning: could not parse ss output: ".toList ++ e.Error]
      | none => []
    match procs with
    | .failed err =>
      some { stdout := r.stdout,
             log := log ++ ["Error retrieving processes: ".toList ++ err], exited := true }
    | .ok ps =>
      some { stdout := r.stdout ++ [headerRow] ++
               (cycleRows tbl GOOS r.data appName ps).map formatRow,
             log := log, exited := false }

/-! ## Vocabulary of the statements -/

/-- A blank line: nothing is left of it after trimming. -/
def isBlank (line : GoString) : Bool := decide (TrimSpace line = [])

/-- A record-start line: a non-blank line whose first character is neither a space
nor a tab. -/
def isRecordStart (line : GoString) : Bool :=
  !isBlank line &&
    (match line with
     | [] => false
     | c :: _ => c != ' ' && c != '\t')

/-- A record-start line with fewer than 5 whitespace-separated fields. -/
def isShort (line : GoString) : Bool :=
  isRecordStart line && decide ((Fields line).length < 5)

/-- A record-start line with at least 5 whitespace-separated fields. -/
def isRecord (line : GoString) : Bool :=
  isRecordStart line && decide (5 ≤ (Fields line).length)

/-- The whitespace-separated field `i` of a line. -/
def field (line : GoString) (i : Nat) : GoString := (Fields line).getD i []

/-- The key `field[3] + "->" + field[4]` of a line. -/
def recordKey (line : GoString) : GoString :=
  field line 3 ++ "->".toList ++ field line 4

/-- The counters `rx = field[1]`, `tx = field[2]` of a line. -/
def recordCounters (line : GoString) : connBytes :=
  { rx := field line 1, tx := field line 2 }

/-- The table entry of a line. -/
def recordEntry (line : GoString) : GoString × connBytes :=
  (recordKey line, recordCounters line)

/-- The table after the entries of the records among `lines` are assigned, in
order, starting from the table `t`. -/
def tableFrom (t : StatsTable) (lines : List GoString) : StatsTable :=
  (lines.filter isRecord).foldl (fun m l => mapSet m (recordKey l) (recordCounters l)) t

/-- The text written for a short record-start line. -/
def shortLineMessage (line : GoString) : GoString :=
  "Didn't find enough fields in line: ".toList ++ line ++ "\n".toList

/-- The texts written for the short record-start lines among `lines`. -/
def diagnostics (lines : List GoString) : List GoString :=
  (lines.filter isShort).map shortLineMessage

/-- The table holds exactly one entry per record among `lines`, the entry of that
record: up to order, its entries are the entries of the records. -/
def OneEntryPerRecord (lines : List GoString) (t : StatsTable) : Prop :=
  t.Perm ((lines.filter isRecord).map recordEntry)

/-! ## Inputs of the examples -/

/-- Two records with the same addresses and different counters. -/
def dupText : GoString :=
  "tcp 1 2 10.0.0.1:80 10.0.0.2:443\ntcp 3 4 10.0.0.1:80 10.0.0.2:443\n".toList

/-- The three-line text of the end-to-end scenario, with a State column. -/
def scenarioText : GoString :=
  ("Netid State  Recv-Q Send-Q Local Address:Port  Peer Address:Port\n" ++
   "tcp   ESTAB  0      0      127.0.0.1:49911     127.0.0.1:42488\n" ++
   "     users:((\"app\",pid=100))\n").toList

/-- The same scenario in the column layout of the comment in `parseSSOutput`:
no State column. -/
def layoutText : GoString :=
  ("Netid Recv-Q Send-Q Local Address:Port  Peer Address:Port\n" ++
   "tcp   0      0      127.0.0.1:49911     127.0.0.1:42488\n" ++
   "     users:((\"app\",pid=100))\n").toList

/-- The connection of the scenario. -/
def scenarioConn : ConnectionStat :=
  { Laddr := { IP := "127.0.0.1".toList, Port := 49911 },
    Raddr := { IP := "127.0.0.1".toList, Port := 42488 },
    Status := "ESTABLISHED".toList }

/-- The process of the scenario. -/
def myapp : Process :=
  { Pid := 100, Name := some "myapp".toList, Connections := some [scenarioConn] }

/-- The key of the scenario. -/
def scenarioKey : GoString := "127.0.0.1:49911->127.0.0.1:42488".toList

/-- A case table that changes no character outside ASCII. -/
def plainTable : Char → Char := fun c => c

/-- The header line of the `ss` output, as the comment in `parseSSOutput` records it. -/
def ssHeader : GoString :=
  "Netid Recv-Q Send-Q Local Address:Port Peer Address:Port Process".toList

/-- The entry the header line yields. -/
def headerKey : GoString := "Local->Address:Port".toList

/-- The counters the header line yields. -/
def headerCounters : connBytes := { rx := "Recv-Q".toList, tx := "Send-Q".toList }

/-- Three records whose keys are one string, the third with other fields. -/
def collisionText : GoString :=
  "tcp 1 2 h:1->x y:2\ntcp 3 4 h:1->x y:2\ntcp 5 6 h:1 x->y:2\n".toList

/-- A line of `MaxScanTokenSize` letters. -/
def longLine : GoString := List.replicate MaxScanTokenSize 'a'

/-- A record followed by a line of `MaxScanTokenSize` letters. -/
def recordThenLongLine : GoString :=
  "tcp 7 9 127.0.0.1:49911 127.0.0.1:42488\n".toList ++ longLine

/-- The lower-case mapping of the Unicode case table on the Greek capital letters
U+0391 to U+03A9 (U+03A2 is unassigned): 32 is added; this table leaves every
other character, the Greek small letters among them, unchanged. -/
def greekTable : Char → Char := fun c =>
  if 0x391 ≤ c.toNat ∧ c.toNat ≤ 0x3a9 ∧ c.toNat ≠ 0x3a2 then Char.ofNat (c.toNat + 32) else c

/-- A process named "οδος", with the connection of the scenario. -/
def greekProcess : Process :=
  { Pid := 7, Name := some "οδος".toList, Connections := some [scenarioConn] }

/-! ## The map -/

theorem mapGet_mapDelete_ne (m : StatsTable) (k k2 : GoString) (h : k2 ≠ k) :
    mapGet (mapDelete m k) k2 = mapGet m k2 := by
  induction m with
  | nil => rfl
  | cons e rest ih =>
    by_cases he : e.1 = k
    · have h2 : ¬ e.1 = k2 := fun h3 => h (h3.symm.trans he)
      simp only [mapDelete, mapGet, if_pos he, if_neg h2, ih]
    · by_cases h2 : e.1 = k2
      · simp only [mapDelete, mapGet, if_neg he, if_pos h2]
      · simp only [mapDelete, mapGet, if_neg he, if_neg h2, ih]

theorem mem_mapDelete (m : StatsTable) (k : GoString) (e : GoString × connBytes) :
    e ∈ mapDelete m k ↔ e ∈ m ∧ e.1 ≠ k := by
  induction m with
  | nil => simp [mapDelete]
  | cons d rest ih =>
    by_cases hd : d.1 = k
    · simp only [mapDelete, hd, if_true, ih, List.mem_cons]
      constructor
      · exact fun h => ⟨Or.inr h.1, h.2⟩
      · rintro ⟨h1 | h1, h2⟩
        · exact absurd (h1 ▸ hd) h2
        · exact ⟨h1, h2⟩
    · simp only [mapDelete, hd, if_false, List.mem_cons, ih]
      constructor
      · rintro (h1 | h1)
        · exact ⟨Or.inl h1, h1 ▸ hd⟩
        · exact ⟨Or.inr h1.1, h1.2⟩
      · rintro ⟨h1 | h1, h2⟩
        · exact Or.inl h1
        · exact Or.inr ⟨h1, h2⟩

theorem mapDelete_sublist (m : StatsTable) (k : GoString) :
    (mapDelete m k).Sublist m := by
  induction m with
  | nil => exact List.Sublist.slnil
  | cons d rest ih =>
    by_cases hd : d.1 = k
    · simp only [mapDelete, hd, if_true]
      exact ih.cons d
    · simp only [mapDelete, hd, if_false]
      exact ih.cons₂ d

theorem mapDelete_of_not_mem (m : StatsTable) (k : GoString)
    (h : k ∉ m.map Prod.fst) : mapDelete m k = m := by
  induction m with
  | nil => rfl
  | cons d rest ih =>
    simp only [List.map_cons, List.mem_cons, not_or] at h
    have hd : ¬ d.1 = k := fun h3 => h.1 h3.symm
    simp [mapDelete, hd, ih h.2]

theorem mapGet_mapSet_self (m : StatsTable) (k : GoString) (v : connBytes) :
    mapGet (mapSet m k v) k = some v := by
  simp [mapSet, mapGet]

theorem mapGet_mapSet_ne (m : StatsTable) (k k2 : GoString) (v : connBytes)
    (h : k2 ≠ k) : mapGet (mapSet m k v) k2 = mapGet m k2 := by
  have h2 : ¬ k = k2 := fun h3 => h h3.symm
  simp only [mapSet, mapGet, h2, if_false]
  exact mapGet_mapDelete_ne m k k2 h

theorem keys_nodup_mapSet (m : StatsTable) (k : GoString) (v : connBytes)
    (h : (m.map Prod.fst).Nodup) : ((mapSet m k v).map Prod.fst).Nodup := by
  simp only [mapSet, List.map_cons, List.nodup_cons]
  constructor
  · intro hk
    obtain ⟨e, he, hek⟩ := List.mem_map.mp hk
    exact ((mem_mapDelete m k e).mp he).2 hek
  · exact ((mapDelete_sublist m k).map Prod.fst).nodup h

theorem mapGet_eq_some_iff (m : StatsTable) (h : (m.map Prod.fst).Nodup)
    (k : GoString) (v : connBytes) : mapGet m k = some v ↔ (k, v) ∈ m := by
  induction m with
  | nil => simp [mapGet]
  | cons e rest ih =>
    obtain ⟨a, b⟩ := e
    simp only [List.map_cons, List.nodup_cons] at h
    by_cases he : a = k
    · subst he
      simp only [mapGet, if_true, List.mem_cons, Option.some.injEq, Prod.mk.injEq, true_and]
      constructor
      · exact fun hv => Or.inl hv.symm
      · rintro (h1 | h1)
        · exact h1.symm
        · exact absurd (List.mem_map.mpr ⟨(a, v), h1, rfl⟩) h.1
    · simp only [mapGet, he, if_false, List.mem_cons, Prod.mk.injEq]
      rw [ih h.2]
      constructor
      · exact fun h1 => Or.inr h1
      · rintro (h1 | h1)
        · exact absurd h1.1.symm he
        · exact h1

theorem mapSet_of_not_mem (m : StatsTable) (k : GoString) (v : connBytes)
    (h : k ∉ m.map Prod.fst) : mapSet m k v = (k, v) :: m := by
  simp only [mapSet, mapDelete_of_not_mem m k h]

/-! ## One line -/

theorem TrimSpace_nil : TrimSpace [] = [] := rfl

theorem parseLine_of_not_recordStart (st : ParseState) (line : GoString)
    (h : isRecordStart line = false) : parseLine st line = some st := by
  unfold parseLine
  by_cases hb : TrimSpace line = []
  · simp [hb]
  · cases line with
    | nil => exact absurd TrimSpace_nil hb
    | cons c rest =>
      simp only [isRecordStart, isBlank, hb, decide_False, Bool.not_false, Bool.true_and,
        Bool.and_eq_false_imp, bne_iff_ne, ne_eq, bne_eq_false_iff_eq] at h
      simp only [hb, if_false, List.get?_cons_zero]
      by_cases h1 : c = ' '
      · simp [h1]
      · simp [h1, h h1]

theorem isRecordStart_cons (line : GoString) (h : isRecordStart line = true) :
    TrimSpace line ≠ [] ∧ ∃ c rest, line = c :: rest ∧ c ≠ ' ' ∧ c ≠ '\t' := by
  cases line with
  | nil => simp [isRecordStart] at h
  | cons c rest =>
    simp only [isRecordStart, isBlank, Bool.and_eq_true, Bool.not_eq_true',
      decide_eq_false_iff_not, bne_iff_ne, ne_eq] at h
    exact ⟨h.1, c, rest, rfl, h.2.1, h.2.2⟩

theorem parseLine_of_short (st : ParseState) (line : GoString)
    (h : isShort line = true) :
    parseLine st line =
      some { st with stdout := st.stdout ++ [shortLineMessage line], currentKey := [] } := by
  simp only [isShort, Bool.and_eq_true, decide_eq_true_eq] at h
  obtain ⟨hb, c, rest, rfl, h1, h2⟩ := isRecordStart_cons line h.1
  unfold parseLine
  simp [hb, h1, h2, h.2, shortLineMessage]

theorem parseLine_of_record (st : ParseState) (line : GoString)
    (h : isRecord line = true) :
    parseLine st line =
      some { st with data := mapSet st.data (recordKey line) (recordCounters line),
                     currentKey := recordKey line } := by
  simp only [isRecord, Bool.and_eq_true, decide_eq_true_eq] at h
  obtain ⟨hb, c, rest, rfl, h1, h2⟩ := isRecordStart_cons line h.1
  have h5 := h.2
  unfold parseLine
  have hlt : ¬ (Fields (c :: rest)).length < 5 := by omega
  simp only [hb, if_false, List.get?_cons_zero, ne_eq, h1, not_false_eq_true, h2, and_self,
    if_true, hlt]
  have e1 : (Fields (c :: rest))[1]? = some (field (c :: rest) 1) := by
    simp only [field, List.getD_eq_getElem?_getD]
    rw [List.getElem?_eq_getElem (by omega)]; rfl
  have e2 : (Fields (c :: rest))[2]? = some (field (c :: rest) 2) := by
    simp only [field, List.getD_eq_getElem?_getD]
    rw [List.getElem?_eq_getElem (by omega)]; rfl
  have e3 : (Fields (c :: rest))[3]? = some (field (c :: rest) 3) := by
    simp only [field, List.getD_eq_getElem?_getD]
    rw [List.getElem?_eq_getElem (by omega)]; rfl
  have e4 : (Fields (c :: rest))[4]? = some (field (c :: rest) 4) := by
    simp only [field, List.getD_eq_getElem?_getD]
    rw [List.getElem?_eq_getElem (by omega)]; rfl
  simp [e1, e2, e3, e4, recordKey, recordCounters]

theorem isShort_or_isRecord (line : GoString) (h : isRecordStart line = true) :
    isShort line = true ∨ isRecord line = true := by
  by_cases h5 : (Fields line).length < 5
  · left; simp [isShort, h, h5]
  · right; simp only [isRecord, h, Bool.true_and, decide_eq_true_eq]; omega

theorem isShort_not_isRecord (line : GoString) (h : isShort line = true) :
    isRecord line = false := by
  simp only [isShort, Bool.and_eq_true, decide_eq_true_eq] at h
  simp only [isRecord, h.1, Bool.true_and, decide_eq_false_iff_not]
  omega

theorem isRecord_not_isShort (line : GoString) (h : isRecord line = true) :
    isShort line = false := by
  simp only [isRecord, Bool.and_eq_true, decide_eq_true_eq] at h
  simp only [isShort, h.1, Bool.true_and, decide_eq_false_iff_not]
  omega

theorem not_recordStart_not_isRecord (line : GoString) (h : isRecordStart line = false) :
    isRecord line = false ∧ isShort line = false := by
  simp [isRecord, isShort, h]

theorem tableFrom_nil (t : StatsTable) : tableFrom t [] = t := rfl

theorem tableFrom_cons_record (t : StatsTable) (l : GoString) (ls : List GoString)
    (h : isRecord l = true) :
    tableFrom t (l :: ls) = tableFrom (mapSet t (recordKey l) (recordCounters l)) ls := by
  simp [tableFrom, List.filter, h]

theorem tableFrom_cons_other (t : StatsTable) (l : GoString) (ls : List GoString)
    (h : isRecord l = false) : tableFrom t (l :: ls) = tableFrom t ls := by
  simp [tableFrom, List.filter, h]

theorem tableFrom_append (t : StatsTable) (a b : List GoString) :
    tableFrom t (a ++ b) = tableFrom (tableFrom t a) b := by
  simp [tableFrom, List.filter_append, List.foldl_append]

theorem diagnostics_cons_short (l : GoString) (ls : List GoString)
    (h : isShort l = true) :
    diagnostics (l :: ls) = shortLineMessage l :: diagnostics ls := by
  simp [diagnostics, List.filter, h]

theorem diagnostics_cons_other (l : GoString) (ls : List GoString)
    (h : isShort l = false) : diagnostics (l :: ls) = diagnostics ls := by
  simp [diagnostics, List.filter, h]

/-- Every iteration of the loop completes: no index is out of range. -/
theorem parseLine_total (st : ParseState) (line : GoString) :
    ∃ ck, parseLine st line =
      some { data := tableFrom st.data [line], currentKey := ck,
             stdout := st.stdout ++ diagnostics [line] } := by
  cases hrs : isRecordStart line with
  | false =>
    obtain ⟨h1, h2⟩ := not_recordStart_not_isRecord line hrs
    refine ⟨st.currentKey, ?_⟩
    rw [parseLine_of_not_recordStart st line hrs, tableFrom_cons_other _ _ _ h1,
      diagnostics_cons_other _ _ h2]
    simp [tableFrom_nil, diagnostics]
  | true =>
    rcases isShort_or_isRecord line hrs with h | h
    · refine ⟨[], ?_⟩
      rw [parseLine_of_short st line h, tableFrom_cons_other _ _ _ (isShort_not_isRecord line h),
        diagnostics_cons_short _ _ h]
      simp [tableFrom_nil, diagnostics]
    · refine ⟨recordKey line, ?_⟩
      rw [parseLine_of_record st line h, tableFrom_cons_record _ _ _ h,
        diagnostics_cons_other _ _ (isRecord_not_isShort line h)]
      simp [tableFrom_nil, diagnostics]

/-- The loop completes on every list of lines; its table is `tableFrom` and its
output the diagnostics of the short lines. -/
theorem parseLoop_eq (lines : List GoString) (st : ParseState) :
    ∃ ck, parseLoop lines st =
      some { data := tableFrom st.data lines, currentKey := ck,
             stdout := st.stdout ++ diagnostics lines } := by
  induction lines generalizing st with
  | nil => exact ⟨st.currentKey, by simp [parseLoop, tableFrom_nil, diagnostics]⟩
  | cons l ls ih =>
    obtain ⟨ck, h1⟩ := parseLine_total st l
    obtain ⟨ck2, h2⟩ := ih { data := tableFrom st.data [l], currentKey := ck,
                             stdout := st.stdout ++ diagnostics [l] }
    refine ⟨ck2, ?_⟩
    simp only [parseLoop, h1, h2]
    have e1 : tableFrom (tableFrom st.data [l]) ls = tableFrom st.data (l :: ls) :=
      (tableFrom_append st.data [l] ls).symm
    have e2 : diagnostics [l] ++ diagnostics ls = diagnostics (l :: ls) := by
      simp [diagnostics, List.filter_cons]
      split <;> simp
    simp only [e1, List.append_assoc, e2]

/-- The function `parseSSOutput` on the output of a command that ran. -/
theorem parseSSOutput_output (text : GoString) :
    parseSSOutput (.output text) =
      some { data := some (tableFrom [] (scanLines text).1), err := (scanLines text).2,
             stdout := diagnostics (scanLines text).1 } := by
  obtain ⟨ck, h⟩ := parseLoop_eq (scanLines text).1 initState
  simp only [parseSSOutput, h]
  simp [initState]

/-! ## Last record wins -/

theorem mapGet_tableFrom_of_no_key (t : StatsTable) (lines : List GoString) (k : GoString)
    (h : ∀ m ∈ lines, isRecord m = true → recordKey m ≠ k) :
    mapGet (tableFrom t lines) k = mapGet t k := by
  induction lines generalizing t with
  | nil => rfl
  | cons l ls ih =>
    have hls : ∀ m ∈ ls, isRecord m = true → recordKey m ≠ k :=
      fun m hm => h m (List.mem_cons_of_mem l hm)
    cases hr : isRecord l with
    | false => rw [tableFrom_cons_other _ _ _ hr, ih t hls]
    | true =>
      rw [tableFrom_cons_record _ _ _ hr, ih _ hls]
      exact mapGet_mapSet_ne t _ k _ (fun h2 => h l (List.mem_cons_self l ls) hr h2.symm)

theorem mapGet_tableFrom_last (t : StatsTable) (pre post : List GoString) (l : GoString)
    (hl : isRecord l = true)
    (hpost : ∀ m ∈ post, isRecord m = true → recordKey m ≠ recordKey l) :
    mapGet (tableFrom t (pre ++ l :: post)) (recordKey l) = some (recordCounters l) := by
  rw [tableFrom_append, tableFrom_cons_record _ _ _ hl,
    mapGet_tableFrom_of_no_key _ post _ hpost]
  exact mapGet_mapSet_self _ _ _

/-- Either no record of `lines` has the key `k`, or there is a last one. -/
theorem last_record_with_key (lines : List GoString) (k : GoString) :
    (∀ m ∈ lines, isRecord m = true → recordKey m ≠ k) ∨
    ∃ pre l post, lines = pre ++ l :: post ∧ isRecord l = true ∧ recordKey l = k ∧
      ∀ m ∈ post, isRecord m = true → recordKey m ≠ k := by
  induction lines with
  | nil => left; simp
  | cons a rest ih =>
    rcases ih with h | ⟨pre, l, post, h1, h2, h3, h4⟩
    · by_cases ha : isRecord a = true ∧ recordKey a = k
      · right
        exact ⟨[], a, rest, rfl, ha.1, ha.2, h⟩
      · left
        intro m hm hr
        rcases List.mem_cons.mp hm with h5 | h5
        · subst h5
          exact fun h6 => ha ⟨hr, h6⟩
        · exact h m h5 hr
    · right
      exact ⟨a :: pre, l, post, by rw [h1]; rfl, h2, h3, h4⟩

theorem keys_nodup_tableFrom (t : StatsTable) (lines : List GoString)
    (h : (t.map Prod.fst).Nodup) : ((tableFrom t lines).map Prod.fst).Nodup := by
  induction lines generalizing t with
  | nil => exact h
  | cons l ls ih =>
    cases hr : isRecord l with
    | false => rw [tableFrom_cons_other _ _ _ hr]; exact ih t h
    | true =>
      rw [tableFrom_cons_record _ _ _ hr]
      exact ih _ (keys_nodup_mapSet t _ _ h)

theorem tableFrom_of_distinct_keys (t : StatsTable) (lines : List GoString)
    (h : (((lines.filter isRecord).map recordKey) ++ t.map Prod.fst).Nodup) :
    tableFrom t lines = ((lines.filter isRecord).map recordEntry).reverse ++ t := by
  induction lines generalizing t with
  | nil => simp [tableFrom]
  | cons l ls ih =>
    cases hr : isRecord l with
    | false =>
      rw [tableFrom_cons_other _ _ _ hr]
      simp only [List.filter, hr] at h ⊢
      exact ih t h
    | true =>
      rw [tableFrom_cons_record _ _ _ hr]
      simp only [List.filter, hr, List.map_cons, List.cons_append, List.nodup_cons,
        List.mem_append, not_or] at h
      rw [mapSet_of_not_mem t _ _ h.1.2, ih]
      · simp [List.filter, hr, recordEntry]
      · have h3 := h.2
        rw [List.nodup_append] at h3 ⊢
        refine ⟨h3.1, ?_, ?_⟩
        · simp only [List.map_cons, List.nodup_cons]
          exact ⟨h.1.2, h3.2.1⟩
        · intro x hx hx2
          simp only [List.map_cons, List.mem_cons] at hx2
          rcases hx2 with h4 | h4
          · exact h.1.1 (h4 ▸ hx)
          · exact h3.2.2 hx h4

/-! ## The scanner -/

theorem byteLen_nil : byteLen [] = 0 := rfl

theorem byteLen_cons (c : Char) (s : GoString) :
    byteLen (c :: s) = c.utf8Size + byteLen s := by
  simp [byteLen]

theorem byteLen_append (s u : GoString) : byteLen (s ++ u) = byteLen s + byteLen u := by
  simp [byteLen]

theorem byteLen_reverse (s : GoString) : byteLen s.reverse = byteLen s := by
  unfold byteLen
  rw [List.map_reverse, List.sum_reverse]

theorem byteLen_replicate (n : Nat) : byteLen (List.replicate n 'a') = n := by
  induction n with
  | zero => rfl
  | succ n ih =>
    rw [List.replicate_succ, byteLen_cons, ih]
    have : Char.utf8Size 'a' = 1 := by decide
    omega

theorem replicate_append_cons (n : Nat) (c : Char) (s : GoString) :
    List.replicate n c ++ c :: s = c :: (List.replicate n c ++ s) := by
  induction n with
  | zero => rfl
  | succ n ih => simp only [List.replicate_succ, List.cons_append, ih]

/-- Reading a run of letters only extends the current line. -/
theorem scanAux_replicate (n : Nat) (rest cur : GoString) :
    scanAux (List.replicate n 'a' ++ rest) cur =
      scanAux rest (List.replicate n 'a' ++ cur) := by
  induction n generalizing cur with
  | zero => rfl
  | succ n ih =>
    have hne : ¬ ('a' = '\n') := by decide
    rw [List.replicate_succ, List.cons_append, scanAux, if_neg hne, ih,
      replicate_append_cons]
    rfl

/-- Reading a whole line that ends with a newline. -/
theorem scanAux_line (l rest cur : GoString) (h : '\n' ∉ l) :
    scanAux (l ++ '\n' :: rest) cur =
      if MaxScanTokenSize ≤ byteLen (l.reverse ++ cur) then ([], some .ErrTooLong)
      else (dropCR (l.reverse ++ cur).reverse :: (scanAux rest []).1, (scanAux rest []).2) := by
  induction l generalizing cur with
  | nil => simp [scanAux]
  | cons c l ih =>
    simp only [List.mem_cons, not_or] at h
    have hne : ¬ (c = '\n') := fun h2 => h.1 h2.symm
    rw [List.cons_append, scanAux, if_neg hne, ih _ h.2]
    simp

/-- A text none of whose lines reaches the buffer size is scanned without error. -/
theorem scanAux_no_error (rest cur : GoString)
    (h : ∀ seg, seg <:+: (cur.reverse ++ rest) → '\n' ∉ seg → byteLen seg < MaxScanTokenSize)
    (hcur : '\n' ∉ cur) : (scanAux rest cur).2 = none := by
  induction rest generalizing cur with
  | nil =>
    have hlen : byteLen cur < MaxScanTokenSize := by
      rw [← byteLen_reverse]
      exact h cur.reverse ⟨[], [], by simp⟩ (by simpa using hcur)
    have hlt : ¬ MaxScanTokenSize ≤ byteLen cur := by omega
    by_cases hc : cur = []
    · simp [scanAux, hc]
    · simp [scanAux, hc, hlt]
  | cons c rest ih =>
    by_cases hc : c = '\n'
    · have hlen : byteLen cur < MaxScanTokenSize := by
        rw [← byteLen_reverse]
        exact h cur.reverse ⟨[], c :: rest, by simp⟩ (by simpa using hcur)
      have hlt : ¬ MaxScanTokenSize ≤ byteLen cur := by omega
      simp only [scanAux, hc, if_true, hlt, if_false]
      apply ih []
      · intro seg hseg hn
        apply h seg _ hn
        obtain ⟨a, b, hab⟩ := hseg
        have hab2 : a ++ seg ++ b = rest := by simpa using hab
        exact ⟨cur.reverse ++ c :: a, b, by simp [← hab2]⟩
      · simp
    · simp only [scanAux, hc, if_false]
      apply ih (c :: cur)
      · intro seg hseg hn
        apply h seg _ hn
        simpa using hseg
      · simp only [List.mem_cons, not_or]
        exact ⟨fun h2 => hc h2.symm, hcur⟩

/-- The only error of the scanner is `ErrTooLong`. -/
theorem scanAux_err (rest cur : GoString) (e : GoError)
    (h : (scanAux rest cur).2 = some e) : e = .ErrTooLong := by
  induction rest generalizing cur with
  | nil =>
    unfold scanAux at h
    split at h
    · simp at h
    · split at h
      · simpa using h.symm
      · simp at h
  | cons c rest ih =>
    unfold scanAux at h
    split at h
    · split at h
      · simpa using h.symm
      · exact ih [] h
    · exact ih _ h

/-! ## The scanner, line by line -/

/-- Reading characters other than the newline only extends the current line. -/
theorem scanAux_noNewline (l rest cur : GoString) (h : '\n' ∉ l) :
    scanAux (l ++ rest) cur = scanAux rest (l.reverse ++ cur) := by
  induction l generalizing cur with
  | nil => rfl
  | cons c l ih =>
    simp only [List.mem_cons, not_or] at h
    have hne : ¬ (c = '\n') := fun h2 => h.1 h2.symm
    rw [List.cons_append, scanAux, if_neg hne, ih _ h.2]
    simp

/-- A line that reaches the size of the buffer stops the scan. -/
theorem scanAux_tooLong (l rest : GoString) (h : '\n' ∉ l)
    (hlen : MaxScanTokenSize ≤ byteLen l) (hrest : rest = [] ∨ ∃ r, rest = '\n' :: r) :
    scanAux (l ++ rest) [] = ([], some .ErrTooLong) := by
  have hl : MaxScanTokenSize ≤ byteLen (l.reverse ++ []) := by
    rw [List.append_nil, byteLen_reverse]
    exact hlen
  rcases hrest with h0 | ⟨r, hr⟩
  · subst h0
    rw [scanAux_noNewline l [] [] h, scanAux]
    have hne : l.reverse ++ [] ≠ [] := by
      intro h2
      rw [h2] at hl
      exact absurd hl (by decide)
    rw [if_neg hne, if_pos hl]
  · subst hr
    rw [scanAux_line l r [] h, if_pos hl]

/-- A text that ends with a newline, followed by more text: the lines of both, or
the lines of the first up to its error. -/
theorem scanAux_append (p rest cur : GoString) :
    scanAux (p ++ '\n' :: rest) cur =
      if (scanAux (p ++ ['\n']) cur).2 = none then
        ((scanAux (p ++ ['\n']) cur).1 ++ (scanAux rest []).1, (scanAux rest []).2)
      else scanAux (p ++ ['\n']) cur := by
  induction p generalizing cur with
  | nil =>
    by_cases hlen : MaxScanTokenSize ≤ byteLen cur
    · simp [scanAux, hlen]
    · simp [scanAux, hlen]
  | cons c p ih =>
    by_cases hc : c = '\n'
    · by_cases hlen : MaxScanTokenSize ≤ byteLen cur
      · simp [scanAux, hc, hlen]
      · have e1 : ∀ X, scanAux ((c :: p) ++ X) cur =
            (dropCR cur.reverse :: (scanAux (p ++ X) []).1, (scanAux (p ++ X) []).2) := by
          intro X
          rw [List.cons_append, scanAux, if_pos hc, if_neg hlen]
        rw [e1, e1, ih []]
        by_cases hn : (scanAux (p ++ ['\n']) []).2 = none
        · simp [hn]
        · simp [hn]
    · have e1 : ∀ X, scanAux ((c :: p) ++ X) cur = scanAux (p ++ X) (c :: cur) := by
        intro X
        rw [List.cons_append, scanAux, if_neg hc]
      rw [e1, e1]
      exact ih (c :: cur)

theorem scanLines_nil : scanLines [] = ([], none) := rfl

/-- The scan of a text made of whole lines followed by more text. -/
theorem scanLines_append (a rest : GoString) (ha : a = [] ∨ ∃ p, a = p ++ ['\n']) :
    scanLines (a ++ rest) =
      if (scanLines a).2 = none then
        ((scanLines a).1 ++ (scanLines rest).1, (scanLines rest).2)
      else scanLines a := by
  rcases ha with h | ⟨p, hp⟩
  · subst h
    simp [scanLines_nil]
  · subst hp
    have h := scanAux_append p rest []
    simp only [scanLines, List.append_assoc, List.singleton_append]
    exact h

theorem byteLen_le_of_infix (seg s : GoString) (h : seg <:+: s) : byteLen seg ≤ byteLen s := by
  obtain ⟨a, b, hab⟩ := h
  rw [← hab, byteLen_append, byteLen_append]
  omega

/-- A part of `x ++ c :: y` that does not contain `c` lies in `x` or in `y`. -/
theorem infix_of_split (seg x y : GoString) (c : Char) (hc : c ∉ seg)
    (h : seg <:+: x ++ c :: y) : seg <:+: x ∨ seg <:+: y := by
  obtain ⟨p, q, hpq⟩ := h
  rw [List.append_assoc] at hpq
  rcases List.append_eq_append_iff.mp hpq with ⟨a1, h1, h2⟩ | ⟨c1, h1, h2⟩
  · rcases List.append_eq_append_iff.mp h2 with ⟨b1, h3, _⟩ | ⟨d1, h3, h4⟩
    · left
      exact ⟨p, b1, by rw [h1, h3, List.append_assoc]⟩
    · cases d1 with
      | nil =>
        left
        exact ⟨p, [], by rw [h1, h3]; simp⟩
      | cons d d2 =>
        exfalso
        have hd : d = c := by
          have := List.cons.inj h4
          exact this.1.symm
        apply hc
        rw [h3, ← hd]
        simp
  · cases c1 with
    | nil =>
      cases seg with
      | nil => left; exact ⟨[], x, by simp⟩
      | cons s0 s1 =>
        exfalso
        simp only [List.nil_append, List.cons_append, List.cons.injEq] at h2
        apply hc
        rw [h2.1]
        simp
    | cons d d2 =>
      right
      simp only [List.cons_append, List.cons.injEq] at h2
      exact ⟨d2, q, by rw [h2.2, List.append_assoc]⟩

/-- A scan without error: no newline-free part of the text reaches the buffer size. -/
theorem scanAux_segments_short (rest cur : GoString) (hcur : '\n' ∉ cur)
    (h : (scanAux rest cur).2 = none) :
    ∀ seg, seg <:+: (cur.reverse ++ rest) → '\n' ∉ seg → byteLen seg < MaxScanTokenSize := by
  induction rest generalizing cur with
  | nil =>
    intro seg hseg _
    have hle := byteLen_le_of_infix seg _ hseg
    rw [List.append_nil, byteLen_reverse] at hle
    unfold scanAux at h
    by_cases hc : cur = []
    · subst hc
      have : byteLen ([] : GoString) = 0 := rfl
      have h0 : 0 < MaxScanTokenSize := by decide
      omega
    · rw [if_neg hc] at h
      by_cases hlen : MaxScanTokenSize ≤ byteLen cur
      · rw [if_pos hlen] at h
        simp at h
      · omega
  | cons c rest ih =>
    intro seg hseg hn
    unfold scanAux at h
    by_cases hc : c = '\n'
    · rw [if_pos hc] at h
      subst hc
      by_cases hlen : MaxScanTokenSize ≤ byteLen cur
      · rw [if_pos hlen] at h
        simp at h
      · rw [if_neg hlen] at h
        rcases infix_of_split seg _ _ _ hn hseg with h1 | h1
        · have hle := byteLen_le_of_infix seg _ h1
          rw [byteLen_reverse] at hle
          omega
        · exact ih [] (by simp) h seg (by simpa using h1) hn
    · rw [if_neg hc] at h
      have hcur2 : '\n' ∉ c :: cur := by
        simp only [List.mem_cons, not_or]
        exact ⟨fun h2 => hc h2.symm, hcur⟩
      exact ih (c :: cur) hcur2 h seg (by simpa using hseg) hn

/-- The scanner fails exactly on the texts with a newline-free part of
`MaxScanTokenSize` bytes or more. -/
theorem scanLines_error_iff (text : GoString) :
    (scanLines text).2 = some .ErrTooLong ↔
      ∃ seg, seg <:+: text ∧ '\n' ∉ seg ∧ MaxScanTokenSize ≤ byteLen seg := by
  constructor
  · intro h
    by_contra hno
    have hall : ∀ seg, seg <:+: ([] : GoString).reverse ++ text → '\n' ∉ seg →
        byteLen seg < MaxScanTokenSize := by
      intro seg hseg hn
      by_contra hlt
      exact hno ⟨seg, by simpa using hseg, hn, by omega⟩
    have := scanAux_no_error text [] hall (by simp)
    unfold scanLines at h
    rw [this] at h
    simp at h
  · rintro ⟨seg, hseg, hn, hlen⟩
    cases herr : (scanLines text).2 with
    | none =>
      have := scanAux_segments_short text [] (by simp) herr seg (by simpa using hseg) hn
      omega
    | some e =>
      rw [scanAux_err text [] e herr]

/-! ## Fields of a line -/

theorem fieldsAux_append_space (s cur : GoString) (c : Char) (hc : isSpace c = true) :
    fieldsAux (s ++ [c]) cur = fieldsAux s cur := by
  induction s generalizing cur with
  | nil =>
    by_cases h : cur = []
    · simp [fieldsAux, hc, h]
    · simp [fieldsAux, hc, h]
  | cons d s ih =>
    have e1 : ∀ t, fieldsAux (d :: t) cur =
        if isSpace d then
          if cur = [] then fieldsAux t [] else cur.reverse :: fieldsAux t []
        else fieldsAux t (d :: cur) := by
      intro t
      rw [fieldsAux]
    rw [List.cons_append, e1, e1, ih, ih]

theorem Fields_dropCR (l : GoString) : Fields (dropCR l) = Fields l := by
  unfold dropCR
  by_cases h : l.getLast? = some '\r'
  · rw [if_pos h]
    have h2 : l.dropLast ++ ['\r'] = l := List.dropLast_append_getLast? _ (by simp [h])
    conv_rhs => rw [← h2]
    exact (fieldsAux_append_space _ [] '\r' (by decide)).symm
  · rw [if_neg h]

theorem isRecord_dropCR_of_short (l : GoString) (h : (Fields l).length < 5) :
    isRecord (dropCR l) = false := by
  simp only [isRecord, Fields_dropCR, Bool.and_eq_false_imp, decide_eq_false_iff_not]
  intro _
  omega

theorem fieldsAux_replicate (n : Nat) (cur : GoString) :
    fieldsAux (List.replicate n 'a') cur = fieldsAux [] (List.replicate n 'a' ++ cur) := by
  induction n generalizing cur with
  | zero => rfl
  | succ n ih =>
    have step : ∀ s c2, fieldsAux ('a' :: s) c2 = fieldsAux s ('a' :: c2) := by
      intro s c2
      have hs : isSpace 'a' = false := by decide
      simp [fieldsAux, hs]
    rw [List.replicate_succ, step, ih, replicate_append_cons]
    rfl

theorem Fields_replicate_length (n : Nat) : (Fields (List.replicate n 'a')).length ≤ 1 := by
  unfold Fields
  rw [fieldsAux_replicate, fieldsAux]
  split <;> simp

theorem TrimSpace_replicate (n : Nat) :
    TrimSpace (List.replicate (n + 1) 'a') = List.replicate (n + 1) 'a' := by
  have hs : isSpace 'a' = false := by decide
  unfold TrimSpace
  have h1 : (List.replicate (n + 1) 'a').dropWhile isSpace = List.replicate (n + 1) 'a' := by
    rw [List.replicate_succ, List.dropWhile_cons]
    simp [hs]
  rw [h1, List.reverse_replicate, h1, List.reverse_replicate]

theorem isRecordStart_replicate (n : Nat) :
    isRecordStart (List.replicate (n + 1) 'a') = true := by
  unfold isRecordStart isBlank
  rw [TrimSpace_replicate]
  simp [List.replicate_succ]

/-- The scan of a text that begins with a line shorter than the buffer. -/
theorem scanLines_line (l rest : GoString) (h : '\n' ∉ l)
    (hlen : byteLen l < MaxScanTokenSize) :
    scanLines (l ++ '\n' :: rest) = (dropCR l :: (scanLines rest).1, (scanLines rest).2) := by
  unfold scanLines
  have h1 : ¬ MaxScanTokenSize ≤ byteLen (l.reverse ++ []) := by
    rw [List.append_nil, byteLen_reverse]
    omega
  rw [scanAux_line l rest [] h, if_neg h1, List.append_nil, List.reverse_reverse]

/-! ## The name filter -/

theorem HasPrefix_iff (s p : GoString) : HasPrefix s p = true ↔ p <+: s := by
  induction p generalizing s with
  | nil => simp [HasPrefix]
  | cons d p ih =>
    cases s with
    | nil => simp [HasPrefix]
    | cons c s =>
      simp only [HasPrefix, Bool.and_eq_true, beq_iff_eq, ih, List.cons_prefix_cons]
      exact ⟨fun h => ⟨h.1.symm, h.2⟩, fun h => ⟨h.1.symm, h.2⟩⟩

theorem Contains_iff (s substr : GoString) : Contains s substr = true ↔ substr <:+: s := by
  induction s with
  | nil =>
    simp only [Contains, HasPrefix_iff]
    constructor
    · exact fun h => h.isInfix
    · intro h
      rw [List.eq_nil_of_infix_nil h]
  | cons c s ih =>
    simp only [Contains, Bool.or_eq_true, HasPrefix_iff, ih]
    rw [List.infix_cons_iff]

theorem Contains_nil (s : GoString) : Contains s [] = true :=
  (Contains_iff s []).mpr ⟨[], s, rfl⟩

theorem ToLower_nil (tbl : Char → Char) : ToLower tbl [] = [] := rfl

/-! ## The table of the parser -/

theorem mapGet_tableFrom_or (t : StatsTable) (lines : List GoString) (k : GoString) :
    mapGet (tableFrom t lines) k =
      match mapGet (tableFrom [] lines) k with
      | some v => some v
      | none => mapGet t k := by
  rcases last_record_with_key lines k with h | ⟨pre, l, post, h1, h2, h3, h4⟩
  · rw [mapGet_tableFrom_of_no_key t lines k h, mapGet_tableFrom_of_no_key [] lines k h]
    rfl
  · subst h3
    rw [h1, mapGet_tableFrom_last t pre post l h2 h4,
      mapGet_tableFrom_last [] pre post l h2 h4]

/-- C1, as stated, fails when two records share their addresses: two records, one
entry, and the counters of the first record are not in the table. -/
theorem duplicate_key_not_one_entry_per_record :
    (∃ t, parseSSOutput (.output dupText) =
        some { data := some t, err := none, stdout := [] } ∧
      ((scanLines dupText).1.filter isRecord).length = 2 ∧
      t.length = 1 ∧
      ¬ OneEntryPerRecord (scanLines dupText).1 t) := by
  refine ⟨[("10.0.0.1:80->10.0.0.2:443".toList, ⟨"3".toList, "4".toList⟩)],
    by decide, by decide, by decide, ?_⟩
  intro h
  have h2 := h.length_eq
  have h3 : ((scanLines dupText).1.filter isRecord).length = 2 := by decide
  simp only [List.length_map, h3] at h2
  exact absurd h2 (by decide)

/-- C1, amended: for every text the parse completes, and over the lines the scanner
delivers the table has no repeated key; its entries are exactly the entries of
the records (record-start lines with at least 5 fields) that no later record
with the same key follows, key `field[3] + "->" + field[4]`, counters
`rx = field[1]`, `tx = field[2]`; when the records have pairwise distinct keys
the table has exactly one entry per record; blank lines and lines starting with
a space or a tab leave the table unchanged. -/
theorem table_entries_of_records (text : GoString) :
    ∃ t, parseSSOutput (.output text) =
        some { data := some t, err := (scanLines text).2,
               stdout := diagnostics (scanLines text).1 } ∧
      (t.map Prod.fst).Nodup ∧
      (∀ k v, (k, v) ∈ t ↔
        ∃ pre l post, (scanLines text).1 = pre ++ l :: post ∧ isRecord l = true ∧
          field l 3 ++ "->".toList ++ field l 4 = k ∧
          v = { rx := field l 1, tx := field l 2 } ∧
          ∀ m ∈ post, isRecord m = true → recordKey m ≠ k) ∧
      ((((scanLines text).1.filter isRecord).map recordKey).Nodup →
        OneEntryPerRecord (scanLines text).1 t) ∧
      (∀ st line, (isBlank line = true ∨ line.head? = some ' ' ∨ line.head? = some '\t') →
        parseLine st line = some st) := by
  refine ⟨tableFrom [] (scanLines text).1, parseSSOutput_output text, ?_, ?_, ?_, ?_⟩
  · exact keys_nodup_tableFrom [] _ List.nodup_nil
  · intro k v
    rw [← mapGet_eq_some_iff _ (keys_nodup_tableFrom [] _ List.nodup_nil)]
    constructor
    · intro h
      rcases last_record_with_key (scanLines text).1 k with h0 | ⟨pre, l, post, h1, h2, h3, h4⟩
      · rw [mapGet_tableFrom_of_no_key [] _ k h0] at h
        simp [mapGet] at h
      · refine ⟨pre, l, post, h1, h2, h3, ?_, h4⟩
        subst h3
        rw [h1, mapGet_tableFrom_last [] pre post l h2 h4] at h
        exact (Option.some.inj h).symm
    · rintro ⟨pre, l, post, h1, h2, h3, h4, h5⟩
      have h3b : recordKey l = k := h3
      subst h3b
      rw [h1, mapGet_tableFrom_last [] pre post l h2 h5, h4]
      rfl
  · intro h
    unfold OneEntryPerRecord
    rw [tableFrom_of_distinct_keys [] _ (by simpa using h), List.append_nil]
    exact List.reverse_perm _
  · intro st line h
    apply parseLine_of_not_recordStart
    rcases h with h | h | h
    · simp [isRecordStart, h]
    · cases line with
      | nil => simp [isRecordStart]
      | cons c rest =>
        simp only [List.head?_cons, Option.some.injEq] at h
        simp [isRecordStart, h]
    · cases line with
      | nil => simp [isRecordStart]
      | cons c rest =>
        simp only [List.head?_cons, Option.some.injEq] at h
        simp [isRecordStart, h]

/-- C3, as stated, fails: the scenario text does not parse to the one-entry table
with the key `127.0.0.1:49911->127.0.0.1:42488`, that key is not in the table
parsed, and the row of the process does not show rx = "0". -/
theorem scenario_table_is_not_the_stated_one :
    (∃ r t, parseSSOutput (.output scenarioText) = some r ∧ r.data = some t ∧
      t ≠ [(scenarioKey, { rx := "0".toList, tx := "0".toList })] ∧
      mapGet t scenarioKey = none ∧
      ∀ row ∈ cycleRows plainTable "linux".toList r.data "myapp".toList [myapp],
        row.rxVal ≠ "0".toList) := by
  refine ⟨{ data := some [("0->127.0.0.1:49911".toList, ⟨"ESTAB".toList, "0".toList⟩),
                          ("Send-Q->Local".toList, ⟨"State".toList, "Recv-Q".toList⟩)],
            err := none, stdout := [] }, _, by decide, rfl, by decide, by decide, ?_⟩
  decide

/-- C3, amended: the scenario text, whose lines carry a State column, parses to the
two-entry table with "Send-Q->Local" (rx "State", tx "Recv-Q") and
"0->127.0.0.1:49911" (rx "ESTAB", tx "0"), and the row of the process "myapp"
shows "N/A" twice; the same scenario without the State column, the layout the
parser reads, yields the entry "127.0.0.1:49911->127.0.0.1:42488" with rx "0"
and tx "0" (next to the entry of the header line), and the row shows rx = "0"
and tx = "0". -/
theorem scenario_tables_and_rows :
    parseSSOutput (.output scenarioText) =
      some { data := some [("0->127.0.0.1:49911".toList, ⟨"ESTAB".toList, "0".toList⟩),
                           ("Send-Q->Local".toList, ⟨"State".toList, "Recv-Q".toList⟩)],
             err := none, stdout := [] } ∧
    cycleRows plainTable "linux".toList
        (some [("0->127.0.0.1:49911".toList, ⟨"ESTAB".toList, "0".toList⟩),
               ("Send-Q->Local".toList, ⟨"State".toList, "Recv-Q".toList⟩)])
        "myapp".toList [myapp] =
      [{ pid := 100, name := "myapp".toList, laddr := "127.0.0.1:49911".toList,
         remote := "127.0.0.1:42488".toList, state := "ESTABLISHED".toList,
         rxVal := "N/A".toList, txVal := "N/A".toList }] ∧
    parseSSOutput (.output layoutText) =
      some { data := some [(scenarioKey, ⟨"0".toList, "0".toList⟩),
                           ("Local->Address:Port".toList, ⟨"Recv-Q".toList, "Send-Q".toList⟩)],
             err := none, stdout := [] } ∧
    cycleRows plainTable "linux".toList
        (some [(scenarioKey, ⟨"0".toList, "0".toList⟩),
               ("Local->Address:Port".toList, ⟨"Recv-Q".toList, "Send-Q".toList⟩)])
        "myapp".toList [myapp] =
      [{ pid := 100, name := "myapp".toList, laddr := "127.0.0.1:49911".toList,
         remote := "127.0.0.1:42488".toList, state := "ESTABLISHED".toList,
         rxVal := "0".toList, txVal := "0".toList }] := by
  refine ⟨by decide, by decide, by decide, by decide⟩

/-- C5, as stated, fails when a later record with other fields yields the same key
string: the first two lines have the same field[3] and field[4], the third has
not, and the table maps their key to the counters of the third line. -/
theorem last_line_with_same_fields_overwritten :
    (scanLines collisionText).1 =
      ["tcp 1 2 h:1->x y:2".toList, "tcp 3 4 h:1->x y:2".toList,
       "tcp 5 6 h:1 x->y:2".toList] ∧
    isRecord "tcp 1 2 h:1->x y:2".toList = true ∧
    isRecord "tcp 3 4 h:1->x y:2".toList = true ∧
    isRecord "tcp 5 6 h:1 x->y:2".toList = true ∧
    field "tcp 1 2 h:1->x y:2".toList 3 = field "tcp 3 4 h:1->x y:2".toList 3 ∧
    field "tcp 1 2 h:1->x y:2".toList 4 = field "tcp 3 4 h:1->x y:2".toList 4 ∧
    field "tcp 5 6 h:1 x->y:2".toList 3 ≠ field "tcp 3 4 h:1->x y:2".toList 3 ∧
    (∃ t, parseSSOutput (.output collisionText) =
        some { data := some t, err := none, stdout := [] } ∧
      mapGet t (field "tcp 3 4 h:1->x y:2".toList 3 ++ "->".toList ++
          field "tcp 3 4 h:1->x y:2".toList 4) =
        some { rx := "5".toList, tx := "6".toList } ∧
      mapGet t (field "tcp 3 4 h:1->x y:2".toList 3 ++ "->".toList ++
          field "tcp 3 4 h:1->x y:2".toList 4) ≠
        some { rx := field "tcp 3 4 h:1->x y:2".toList 1,
               tx := field "tcp 3 4 h:1->x y:2".toList 2 }) := by
  refine ⟨by decide, by decide, by decide, by decide, by decide, by decide, by decide,
    [("h:1->x->y:2".toList, ⟨"5".toList, "6".toList⟩)], by decide, by decide, by decide⟩

/-- C5, amended: when the scanner delivers the lines `pre`, `l`, `post`, where `l`
is a record and no record of `post` yields the key string
`field[3] + "->" + field[4]` of `l`, the parse completes, the error it returns
is the one of the scanner, and the table maps that key, which is the key of
every record with the same field[3] and field[4], to the counters
`(field[1], field[2])` of `l`. -/
theorem duplicate_key_last_wins (text : GoString) (pre post : List GoString) (l : GoString)
    (hlines : (scanLines text).1 = pre ++ l :: post) (hl : isRecord l = true)
    (hlast : ∀ m ∈ post, isRecord m = true →
      field m 3 ++ "->".toList ++ field m 4 ≠ field l 3 ++ "->".toList ++ field l 4) :
    ∃ t out, parseSSOutput (.output text) =
        some { data := some t, err := (scanLines text).2, stdout := out } ∧
      mapGet t (field l 3 ++ "->".toList ++ field l 4) =
        some { rx := field l 1, tx := field l 2 } ∧
      ∀ m ∈ pre ++ l :: post, isRecord m = true →
        field m 3 = field l 3 ∧ field m 4 = field l 4 →
        mapGet t (field m 3 ++ "->".toList ++ field m 4) =
          some { rx := field l 1, tx := field l 2 } := by
  have hget : mapGet (tableFrom [] (scanLines text).1) (recordKey l) =
      some (recordCounters l) := by
    rw [hlines]
    exact mapGet_tableFrom_last [] pre post l hl hlast
  refine ⟨_, _, parseSSOutput_output text, hget, ?_⟩
  intro m _ _ hf
  rw [hf.1, hf.2]
  exact hget

/-- C5, amended, at two records with the same addresses: the counters of the second
are the ones in the table. -/
theorem duplicate_key_last_wins_witness :
    ∃ t out, parseSSOutput (.output dupText) =
        some { data := some t, err := (scanLines dupText).2, stdout := out } ∧
      mapGet t (field "tcp 3 4 10.0.0.1:80 10.0.0.2:443".toList 3 ++ "->".toList ++
          field "tcp 3 4 10.0.0.1:80 10.0.0.2:443".toList 4) =
        some { rx := field "tcp 3 4 10.0.0.1:80 10.0.0.2:443".toList 1,
               tx := field "tcp 3 4 10.0.0.1:80 10.0.0.2:443".toList 2 } ∧
      ∀ m ∈ ["tcp 1 2 10.0.0.1:80 10.0.0.2:443".toList] ++
          "tcp 3 4 10.0.0.1:80 10.0.0.2:443".toList :: [], isRecord m = true →
        field m 3 = field "tcp 3 4 10.0.0.1:80 10.0.0.2:443".toList 3 ∧
          field m 4 = field "tcp 3 4 10.0.0.1:80 10.0.0.2:443".toList 4 →
        mapGet t (field m 3 ++ "->".toList ++ field m 4) =
          some { rx := field "tcp 3 4 10.0.0.1:80 10.0.0.2:443".toList 1,
                 tx := field "tcp 3 4 10.0.0.1:80 10.0.0.2:443".toList 2 } :=
  duplicate_key_last_wins dupText ["tcp 1 2 10.0.0.1:80 10.0.0.2:443".toList] []
    "tcp 3 4 10.0.0.1:80 10.0.0.2:443".toList (by decide) (by decide)
    (by intro m hm; exact absurd hm (List.not_mem_nil m))

/-! ## The header line -/

theorem scanLines_ssHeader (rest : GoString) :
    scanLines (ssHeader ++ '\n' :: rest) =
      (ssHeader :: (scanLines rest).1, (scanLines rest).2) := by
  unfold scanLines
  rw [scanAux_line ssHeader rest [] (by decide)]
  have h1 : ¬ MaxScanTokenSize ≤ byteLen (ssHeader.reverse ++ []) := by decide
  have h2 : dropCR (ssHeader.reverse ++ []).reverse = ssHeader := by decide
  rw [if_neg h1, h2]

/-- C7, as stated, fails: the header line has 8 fields, not fewer than 5, and the
table parsed from the header line alone has one entry, which the table parsed
from the empty text has not. -/
theorem header_line_yields_an_entry :
    (Fields ssHeader).length = 8 ∧ ¬ (Fields ssHeader).length < 5 ∧
    parseSSOutput (.output (ssHeader ++ "\n".toList)) =
      some { data := some [(headerKey, headerCounters)], err := none, stdout := [] } ∧
    parseSSOutput (.output []) = some { data := some [], err := none, stdout := [] } := by
  refine ⟨by decide, by decide, by decide, by decide⟩

/-- C7, amended: the header line splits into the 8 fields Netid, Recv-Q, Send-Q,
Local, Address:Port, Peer, Address:Port, Process and is read as a record; a
text that begins with it is parsed with the same error and the same output as
the text without it, and its table is the table of that text with, in addition,
the key "Local->Address:Port" mapped to rx "Recv-Q" and tx "Send-Q" unless a
line of that text yields the same key. -/
theorem header_line_is_a_record (rest : GoString) :
    Fields ssHeader =
      ["Netid".toList, "Recv-Q".toList, "Send-Q".toList, "Local".toList,
       "Address:Port".toList, "Peer".toList, "Address:Port".toList, "Process".toList] ∧
    ∃ t t2 e out,
      parseSSOutput (.output (ssHeader ++ '\n' :: rest)) =
        some { data := some t, err := e, stdout := out } ∧
      parseSSOutput (.output rest) = some { data := some t2, err := e, stdout := out } ∧
      ∀ k, mapGet t k =
        match mapGet t2 k with
        | some v => some v
        | none =>
          if k = "Local->Address:Port".toList then
            some { rx := "Recv-Q".toList, tx := "Send-Q".toList }
          else none := by
  have hrec : isRecord ssHeader = true := by decide
  have hshort : isShort ssHeader = false := by decide
  refine ⟨by decide, tableFrom [] (ssHeader :: (scanLines rest).1),
    tableFrom [] (scanLines rest).1, (scanLines rest).2, diagnostics (scanLines rest).1,
    ?_, parseSSOutput_output rest, ?_⟩
  · rw [parseSSOutput_output, scanLines_ssHeader, diagnostics_cons_other _ _ hshort]
  · intro k
    rw [tableFrom_cons_record _ _ _ hrec, mapGet_tableFrom_or]
    cases mapGet (tableFrom [] (scanLines rest).1) k with
    | some v => rfl
    | none =>
      have hk : recordKey ssHeader = "Local->Address:Port".toList := by decide
      have hc : recordCounters ssHeader =
          { rx := "Recv-Q".toList, tx := "Send-Q".toList } := by decide
      rw [hk, hc]
      by_cases h : k = "Local->Address:Port".toList
      · subst h
        simp only [if_true]
        exact mapGet_mapSet_self _ _ _
      · simp only [if_neg h]
        rw [mapGet_mapSet_ne _ _ _ _ h]
        rfl

/-! ## The join -/

theorem processRows_of_included (tbl : Char → Char) (GOOS : GoString)
    (ssData : Option StatsTable) (appName : GoString) (p : Process) (name : GoString)
    (conns : List ConnectionStat) (hname : p.Name = some name)
    (hconns : p.Connections = some conns)
    (hinc : Contains (ToLower tbl name) (ToLower tbl appName) = true) :
    processRows tbl GOOS ssData appName p = conns.map (connRow GOOS ssData p.Pid name) := by
  simp [processRows, hname, hconns, hinc]

theorem processRows_of_excluded (tbl : Char → Char) (GOOS : GoString)
    (ssData : Option StatsTable) (appName : GoString) (p : Process) (name : GoString)
    (hname : p.Name = some name)
    (hexc : Contains (ToLower tbl name) (ToLower tbl appName) = false) :
    processRows tbl GOOS ssData appName p = [] := by
  simp [processRows, hname, hexc]

/-- C2: for a connection of an included process the row is the one `connRow`
builds from local = "ip:port" and remote = "ip:port"; on Linux, with a table
present that holds the key local + "->" + remote, its receive and transmit
values are the rx and tx strings of that entry, unchanged; when the platform is
not Linux, or the table is absent, or the key is not in the table, both are
"N/A". -/
theorem lookup_policy (tbl : Char → Char) (GOOS : GoString) (ssData : Option StatsTable)
    (appName : GoString) (p : Process) (name : GoString) (conns : List ConnectionStat)
    (conn : ConnectionStat) (hname : p.Name = some name)
    (hinc : Contains (ToLower tbl name) (ToLower tbl appName) = true)
    (hconns : p.Connections = some conns) (hconn : conn ∈ conns) :
    connRow GOOS ssData p.Pid name conn ∈ processRows tbl GOOS ssData appName p ∧
    (connRow GOOS ssData p.Pid name conn).laddr =
      conn.Laddr.IP ++ ":".toList ++ (toString conn.Laddr.Port).toList ∧
    (connRow GOOS ssData p.Pid name conn).remote =
      conn.Raddr.IP ++ ":".toList ++ (toString conn.Raddr.Port).toList ∧
    (∀ m v, GOOS = "linux".toList → ssData = some m →
      mapGet m ((connRow GOOS ssData p.Pid name conn).laddr ++ "->".toList ++
        (connRow GOOS ssData p.Pid name conn).remote) = some v →
      (connRow GOOS ssData p.Pid name conn).rxVal = v.rx ∧
      (connRow GOOS ssData p.Pid name conn).txVal = v.tx) ∧
    ((GOOS ≠ "linux".toList ∨ ssData = none ∨
        ∃ m, ssData = some m ∧
          mapGet m ((connRow GOOS ssData p.Pid name conn).laddr ++ "->".toList ++
            (connRow GOOS ssData p.Pid name conn).remote) = none) →
      (connRow GOOS ssData p.Pid name conn).rxVal = "N/A".toList ∧
      (connRow GOOS ssData p.Pid name conn).txVal = "N/A".toList) := by
  refine ⟨?_, rfl, rfl, ?_, ?_⟩
  · rw [processRows_of_included tbl GOOS ssData appName p name conns hname hconns hinc]
    exact List.mem_map_of_mem _ hconn
  · intro m v hos hm hget
    subst hm
    simp only [connRow] at hget ⊢
    simp only [hos, if_true, hget, and_self]
  · rintro (h | h | ⟨m, hm, hget⟩)
    · simp only [connRow, if_neg h, NA, and_self]
    · subst h
      by_cases hos : GOOS = "linux".toList
      · simp only [connRow, hos, if_true, NA, and_self]
      · simp only [connRow, if_neg hos, NA, and_self]
    · subst hm
      simp only [connRow] at hget ⊢
      by_cases hos : GOOS = "linux".toList
      · simp only [hos, if_true, hget, NA, and_self]
      · simp only [if_neg hos, NA, and_self]

/-- C2 at the process and the connection of the scenario, on Linux, with a table
that holds the key of the connection. -/
theorem lookup_policy_witness :
    connRow "linux".toList (some [(scenarioKey, ⟨"5".toList, "8".toList⟩)]) myapp.Pid
        "myapp".toList scenarioConn ∈
      processRows plainTable "linux".toList (some [(scenarioKey, ⟨"5".toList, "8".toList⟩)])
        "APP".toList myapp ∧
    (connRow "linux".toList (some [(scenarioKey, ⟨"5".toList, "8".toList⟩)]) myapp.Pid
        "myapp".toList scenarioConn).rxVal = "5".toList ∧
    (connRow "linux".toList (some [(scenarioKey, ⟨"5".toList, "8".toList⟩)]) myapp.Pid
        "myapp".toList scenarioConn).txVal = "8".toList :=
  have h := lookup_policy plainTable "linux".toList
    (some [(scenarioKey, ⟨"5".toList, "8".toList⟩)]) "APP".toList myapp "myapp".toList
    [scenarioConn] scenarioConn rfl (by decide) rfl (List.mem_singleton.mpr rfl)
  ⟨h.1, h.2.2.2.1 _ ⟨"5".toList, "8".toList⟩ rfl rfl (by decide)⟩

/-! ## The name filter -/

theorem unicodeToLower_toUpper (tbl : Char → Char) (c : Char) :
    unicodeToLower tbl c.toUpper = unicodeToLower tbl c := by
  by_cases h : 97 ≤ c.toNat ∧ c.toNat ≤ 122
  · have hc : c = Char.ofNat c.toNat := (Char.ofNat_toNat c).symm
    generalize c.toNat = n at h hc
    subst hc
    obtain ⟨h1, h2⟩ := h
    interval_cases n <;> rfl
  · have h2 : c.toUpper = c := by
      simp only [Char.toUpper, ge_iff_le]
      rw [if_neg h]
    rw [h2]

theorem unicodeToLower_toLower (tbl : Char → Char) (c : Char) :
    unicodeToLower tbl c.toLower = unicodeToLower tbl c := by
  by_cases h : 65 ≤ c.toNat ∧ c.toNat ≤ 90
  · have hc : c = Char.ofNat c.toNat := (Char.ofNat_toNat c).symm
    generalize c.toNat = n at h hc
    subst hc
    obtain ⟨h1, h2⟩ := h
    interval_cases n <;> rfl
  · have h2 : c.toLower = c := by
      simp only [Char.toLower, ge_iff_le]
      rw [if_neg h]
    rw [h2]

theorem ToLower_map_toUpper (tbl : Char → Char) (s : GoString) :
    ToLower tbl (s.map Char.toUpper) = ToLower tbl s := by
  simp [ToLower, List.map_map, Function.comp_def, unicodeToLower_toUpper]

theorem ToLower_map_toLower (tbl : Char → Char) (s : GoString) :
    ToLower tbl (s.map Char.toLower) = ToLower tbl s := by
  simp [ToLower, List.map_map, Function.comp_def, unicodeToLower_toLower]

/-- C6, as stated, fails outside ASCII: the process named "οδος" has one row with
the filter "οδος" and none with the same filter in capital letters, "ΟΔΟΣ",
whose lower-cased form "οδοσ" ends with another sigma than the name. -/
theorem capital_filter_loses_the_match :
    ToLower greekTable "ΟΔΟΣ".toList = "οδοσ".toList ∧
    ToLower greekTable "οδος".toList = "οδος".toList ∧
    (processRows greekTable "linux".toList none "οδος".toList greekProcess).length = 1 ∧
    processRows greekTable "linux".toList none "ΟΔΟΣ".toList greekProcess = [] := by
  refine ⟨by decide, by decide, by decide, by decide⟩

/-- C6, amended: a process with a readable name and enumerable connections
contributes one row per connection, in order, when its lower-cased name contains
the lower-cased filter as a substring, and no row otherwise; with the empty
filter it contributes one row per connection; the rows depend on the name and
on the filter through their lower-cased forms only, so that they are the same
when the ASCII letters of the name or of the filter are changed to upper or to
lower case, and when the name and the filter are replaced by their lower-cased
forms under a case table for which lower-casing twice is lower-casing once. -/
theorem name_filter (tbl : Char → Char) (GOOS : GoString) (ssData : Option StatsTable)
    (appName : GoString) (p : Process) (name : GoString) (conns : List ConnectionStat)
    (hname : p.Name = some name) (hconns : p.Connections = some conns) :
    (ToLower tbl appName <:+: ToLower tbl name →
      processRows tbl GOOS ssData appName p = conns.map (connRow GOOS ssData p.Pid name) ∧
      (processRows tbl GOOS ssData appName p).length = conns.length) ∧
    (¬ ToLower tbl appName <:+: ToLower tbl name →
      processRows tbl GOOS ssData appName p = []) ∧
    (processRows tbl GOOS ssData [] p).length = conns.length ∧
    (∀ name2 appName2, ToLower tbl name2 = ToLower tbl name →
      ToLower tbl appName2 = ToLower tbl appName →
      (processRows tbl GOOS ssData appName2 { p with Name := some name2 }).length =
        (processRows tbl GOOS ssData appName p).length) ∧
    (processRows tbl GOOS ssData (appName.map Char.toUpper)
        { p with Name := some (name.map Char.toLower) }).length =
      (processRows tbl GOOS ssData appName p).length ∧
    (processRows tbl GOOS ssData (appName.map Char.toLower)
        { p with Name := some (name.map Char.toUpper) }).length =
      (processRows tbl GOOS ssData appName p).length ∧
    ((∀ c, unicodeToLower tbl (unicodeToLower tbl c) = unicodeToLower tbl c) →
      (processRows tbl GOOS ssData (ToLower tbl appName)
          { p with Name := some (ToLower tbl name) }).length =
        (processRows tbl GOOS ssData appName p).length) := by
  have hcase : ∀ name2 appName2, ToLower tbl name2 = ToLower tbl name →
      ToLower tbl appName2 = ToLower tbl appName →
      (processRows tbl GOOS ssData appName2 { p with Name := some name2 }).length =
        (processRows tbl GOOS ssData appName p).length := by
    intro name2 appName2 h1 h2
    simp only [processRows, hname, hconns, h1, h2]
    cases Contains (ToLower tbl name) (ToLower tbl appName) <;> simp
  refine ⟨?_, ?_, ?_, hcase, ?_, ?_, ?_⟩
  · intro h
    have hinc := (Contains_iff _ _).mpr h
    rw [processRows_of_included tbl GOOS ssData appName p name conns hname hconns hinc]
    exact ⟨rfl, List.length_map _ _⟩
  · intro h
    apply processRows_of_excluded tbl GOOS ssData appName p name hname
    cases hc : Contains (ToLower tbl name) (ToLower tbl appName) with
    | false => rfl
    | true => exact absurd ((Contains_iff _ _).mp hc) h
  · rw [processRows_of_included tbl GOOS ssData [] p name conns hname hconns
      (by rw [ToLower_nil]; exact Contains_nil _)]
    exact List.length_map _ _
  · exact hcase _ _ (ToLower_map_toLower tbl name) (ToLower_map_toUpper tbl appName)
  · exact hcase _ _ (ToLower_map_toUpper tbl name) (ToLower_map_toLower tbl appName)
  · intro hid
    have hidem : ∀ s : GoString, ToLower tbl (ToLower tbl s) = ToLower tbl s := by
      intro s
      simp [ToLower, List.map_map, Function.comp_def, hid]
    exact hcase _ _ (hidem name) (hidem appName)

/-- C6, amended, at the process "myapp" of the scenario and the filter "APP". -/
theorem name_filter_witness :
    (processRows plainTable "linux".toList none "APP".toList myapp).length = 1 ∧
    (processRows plainTable "linux".toList none "web".toList myapp) = [] ∧
    (processRows plainTable "linux".toList none [] myapp).length = 1 :=
  have h := name_filter plainTable "linux".toList none "APP".toList myapp "myapp".toList
    [scenarioConn] rfl rfl
  have h2 := name_filter plainTable "linux".toList none "web".toList myapp "myapp".toList
    [scenarioConn] rfl rfl
  ⟨(h.1 (by decide)).2, h2.2.1 (by decide), h.2.2.1⟩

/-! ## Errors of the parse -/

theorem longLine_ne_nil : longLine ≠ [] := by
  intro h
  have h2 := congrArg List.length h
  rw [longLine, List.length_replicate] at h2
  exact absurd h2 (by decide)

theorem scanAux_longLine (cur : GoString) :
    scanAux longLine cur = ([], some .ErrTooLong) := by
  have h1 : scanAux (longLine ++ []) cur = scanAux [] (longLine ++ cur) :=
    scanAux_replicate MaxScanTokenSize [] cur
  rw [List.append_nil] at h1
  have h2 : longLine ++ cur ≠ [] := by
    intro h
    exact longLine_ne_nil (List.append_eq_nil.mp h).1
  have h3 : MaxScanTokenSize ≤ byteLen (longLine ++ cur) := by
    rw [byteLen_append, longLine, byteLen_replicate]
    omega
  rw [h1, scanAux, if_neg h2, if_pos h3]

theorem scanLines_recordThenLongLine :
    scanLines recordThenLongLine =
      (["tcp 7 9 127.0.0.1:49911 127.0.0.1:42488".toList], some .ErrTooLong) := by
  have h : recordThenLongLine =
      "tcp 7 9 127.0.0.1:49911 127.0.0.1:42488".toList ++ '\n' :: longLine := by
    simp [recordThenLongLine]
  unfold scanLines
  rw [h, scanAux_line _ longLine [] (by decide), scanAux_longLine]
  have h1 : ¬ MaxScanTokenSize ≤
      byteLen (("tcp 7 9 127.0.0.1:49911 127.0.0.1:42488".toList).reverse ++ []) := by decide
  have h2 : dropCR (("tcp 7 9 127.0.0.1:49911 127.0.0.1:42488".toList).reverse ++ []).reverse =
      "tcp 7 9 127.0.0.1:49911 127.0.0.1:42488".toList := by decide
  rw [if_neg h1, h2]

/-- C8, as stated, fails for a line of 65536 letters: the command succeeded and the
parse returns the error `ErrTooLong`. -/
theorem long_line_returns_an_error :
    longLine.length = 65536 ∧
    parseSSOutput (.output longLine) =
      some { data := some [], err := some .ErrTooLong, stdout := [] } := by
  refine ⟨by rw [longLine, List.length_replicate]; rfl, ?_⟩
  have h : scanLines longLine = ([], some .ErrTooLong) := scanAux_longLine []
  rw [parseSSOutput_output, h]
  rfl

/-- C8, amended: for every output text of a command that ran, the parse completes
without a run-time failure and returns a table and the error of the scanner;
every iteration of the loop completes, and `line[0]` is read on a non-empty
line only.  The error is absent when no newline-free part of the text reaches
`MaxScanTokenSize` = 65536 bytes, and it is `ErrTooLong` exactly when one does;
at the first line that reaches that size the scan stops, and what is returned
is the table, and the output, of the text before that line together with
`ErrTooLong`.  An error is returned only when the command fails or the scanner
meets such a line. -/
theorem parse_completes_and_errors (text : GoString) :
    (∃ t out, parseSSOutput (.output text) =
      some { data := some t, err := (scanLines text).2, stdout := out }) ∧
    (∀ st line, ∃ st1, parseLine st line = some st1) ∧
    (∀ line : GoString, TrimSpace line ≠ [] → ∃ b, line.get? 0 = some b) ∧
    ((∀ seg, seg <:+: text → '\n' ∉ seg → byteLen seg < MaxScanTokenSize) →
      (scanLines text).2 = none) ∧
    (∀ e, (scanLines text).2 = some e → e = .ErrTooLong) ∧
    (∀ cmd r e, parseSSOutput cmd = some r → r.err = some e →
      (∃ msg, cmd = .failed msg) ∨ e = .ErrTooLong) ∧
    ((scanLines text).2 = some .ErrTooLong ↔
      ∃ seg, seg <:+: text ∧ '\n' ∉ seg ∧ MaxScanTokenSize ≤ byteLen seg) ∧
    (∀ before L rest, text = before ++ (L ++ rest) →
      (before = [] ∨ ∃ p, before = p ++ ['\n']) → (scanLines before).2 = none →
      '\n' ∉ L → MaxScanTokenSize ≤ byteLen L → (rest = [] ∨ ∃ r, rest = '\n' :: r) →
      ∃ t out,
        parseSSOutput (.output before) =
          some { data := some t, err := none, stdout := out } ∧
        parseSSOutput (.output text) =
          some { data := some t, err := some .ErrTooLong, stdout := out }) := by
  refine ⟨⟨_, _, parseSSOutput_output text⟩, ?_, ?_, ?_, ?_, ?_, scanLines_error_iff text, ?_⟩
  · intro st line
    obtain ⟨ck, h⟩ := parseLine_total st line
    exact ⟨_, h⟩
  · intro line h
    cases line with
    | nil => exact absurd TrimSpace_nil h
    | cons c rest => exact ⟨c, rfl⟩
  · intro h
    exact scanAux_no_error text [] (by simpa using h) (by simp)
  · intro e h
    exact scanAux_err text [] e h
  · intro cmd r e hr he
    cases cmd with
    | failed msg => exact Or.inl ⟨msg, rfl⟩
    | output out =>
      right
      rw [parseSSOutput_output] at hr
      have hr2 := Option.some.inj hr
      subst hr2
      exact scanAux_err out [] e he
  · intro before L rest htext hb hnone hn hlen hrest
    have hL : scanLines (L ++ rest) = ([], some .ErrTooLong) :=
      scanAux_tooLong L rest hn hlen hrest
    have hscan : scanLines text = ((scanLines before).1, some .ErrTooLong) := by
      rw [htext, scanLines_append before (L ++ rest) hb, if_pos hnone, hL, List.append_nil]
    refine ⟨tableFrom [] (scanLines before).1, diagnostics (scanLines before).1, ?_, ?_⟩
    · rw [parseSSOutput_output, hnone]
    · rw [parseSSOutput_output, hscan]

/-- A cycle on Linux, given what `parseSSOutput` returns. -/
theorem cycle_linux (tbl : Char → Char) (ss : CmdResult) (ps : List Process)
    (appName : GoString) (r : ParseResult) (h : parseSSOutput ss = some r) :
    cycle tbl "linux".toList ss (.ok ps) appName =
      some { stdout := r.stdout ++ [headerRow] ++
               (cycleRows tbl "linux".toList r.data appName ps).map formatRow,
             log := (match r.err with
               | some e => ["Warning: could not parse ss output: ".toList ++ e.Error]
               | none => []),
             exited := false } := by
  simp only [cycle, cycleStats, if_true, h]

/-- C9, as stated, fails when the error is the one of the scanner: the parse
reports `ErrTooLong` together with the table of the lines read before, the cycle
goes on with that table, and the row shows rx "7" and tx "9", not "N/A". -/
theorem scanner_error_keeps_the_table :
    parseSSOutput (.output recordThenLongLine) =
      some { data := some [(scenarioKey, ⟨"7".toList, "9".toList⟩)],
             err := some .ErrTooLong, stdout := [] } ∧
    cycle plainTable "linux".toList (.output recordThenLongLine) (.ok [myapp])
        "myapp".toList =
      some { stdout := [headerRow,
               formatRow { pid := 100, name := "myapp".toList,
                           laddr := "127.0.0.1:49911".toList,
                           remote := "127.0.0.1:42488".toList,
                           state := "ESTABLISHED".toList,
                           rxVal := "7".toList, txVal := "9".toList }],
             log := ["Warning: could not parse ss output: bufio.Scanner: token too long".toList],
             exited := false } := by
  have h : parseSSOutput (.output recordThenLongLine) =
      some { data := some [(scenarioKey, ⟨"7".toList, "9".toList⟩)],
             err := some .ErrTooLong, stdout := [] } := by
    rw [parseSSOutput_output, scanLines_recordThenLongLine]
    decide
  refine ⟨h, ?_⟩
  rw [cycle_linux plainTable _ [myapp] "myapp".toList _ h]
  decide

/-- C9, amended: in every refresh cycle on Linux in which the `ss` command itself
fails, the cycle is not aborted: it writes the error line, the header and the
rows, logs the warning, and goes on without a stats table, so that every row
shows "N/A" for the receive and for the transmit value. -/
theorem command_failure_degrades_cycle (tbl : Char → Char) (msg : GoString)
    (ps : List Process) (appName : GoString) :
    parseSSOutput (.failed msg) =
      some { data := none, err := some (.execError msg),
             stdout := ["Error running ss command: ".toList ++ msg ++ "\n".toList] } ∧
    cycle tbl "linux".toList (.failed msg) (.ok ps) appName =
      some { stdout := ["Error running ss command: ".toList ++ msg ++ "\n".toList] ++
               [headerRow] ++ (cycleRows tbl "linux".toList none appName ps).map formatRow,
             log := ["Warning: could not parse ss output: ".toList ++ msg],
             exited := false } ∧
    ∀ row ∈ cycleRows tbl "linux".toList none appName ps,
      row.rxVal = "N/A".toList ∧ row.txVal = "N/A".toList := by
  refine ⟨rfl, ?_, ?_⟩
  · simp [cycle, cycleStats, parseSSOutput, GoError.Error]
  · intro row hrow
    simp only [cycleRows, List.mem_flatten, List.mem_map] at hrow
    obtain ⟨rows, ⟨p, _, hp⟩, hmem⟩ := hrow
    subst hp
    unfold processRows at hmem
    split at hmem
    · simp at hmem
    · split at hmem
      · simp at hmem
      · split at hmem
        · simp at hmem
        · obtain ⟨conn, _, hc⟩ := List.mem_map.mp hmem
          subst hc
          simp [connRow, NA]

/-! ## The output of a cycle -/

theorem processRows_length (tbl : Char → Char) (GOOS : GoString)
    (ssData : Option StatsTable) (appName : GoString) (p : Process) :
    (processRows tbl GOOS ssData appName p).length =
      match p.Name, p.Connections with
      | some name, some conns =>
        if Contains (ToLower tbl name) (ToLower tbl appName) = true then conns.length else 0
      | _, _ => 0 := by
  unfold processRows
  cases hn : p.Name with
  | none => rfl
  | some name =>
    cases hc : p.Connections with
    | none =>
      cases hinc : Contains (ToLower tbl name) (ToLower tbl appName) <;> simp
    | some conns =>
      cases hinc : Contains (ToLower tbl name) (ToLower tbl appName) <;> simp [hinc]

/-- C10, as stated, fails: on Linux a record-start line with fewer than 5 fields
adds a line to standard output, before the header row. -/
theorem short_line_is_written_to_stdout :
    cycle plainTable "linux".toList (.output "bad line\n".toList) (.ok [myapp])
        "myapp".toList =
      some { stdout := ["Didn't find enough fields in line: bad line\n".toList, headerRow,
               formatRow { pid := 100, name := "myapp".toList,
                           laddr := "127.0.0.1:49911".toList,
                           remote := "127.0.0.1:42488".toList,
                           state := "ESTABLISHED".toList,
                           rxVal := "N/A".toList, txVal := "N/A".toList }],
             log := [], exited := false } ∧
    ∀ r, cycle plainTable "linux".toList (.output "bad line\n".toList) (.ok [myapp])
        "myapp".toList = some r →
      ∀ data, r.stdout ≠
        headerRow :: (cycleRows plainTable "linux".toList data "myapp".toList [myapp]).map
          formatRow := by
  have h : cycle plainTable "linux".toList (.output "bad line\n".toList) (.ok [myapp])
        "myapp".toList =
      some { stdout := ["Didn't find enough fields in line: bad line\n".toList, headerRow,
               formatRow { pid := 100, name := "myapp".toList,
                           laddr := "127.0.0.1:49911".toList,
                           remote := "127.0.0.1:42488".toList,
                           state := "ESTABLISHED".toList,
                           rxVal := "N/A".toList, txVal := "N/A".toList }],
             log := [], exited := false } := by decide
  refine ⟨h, ?_⟩
  intro r hr data hstd
  rw [h] at hr
  have hr2 := Option.some.inj hr
  subst hr2
  have hhead := (List.cons.inj hstd).1
  exact absurd hhead (by decide)

/-- C10, amended: for every filter, process snapshot and result of the `ss`
command, what a cycle writes to standard output is, first, the lines of the
parser (none when the platform is not Linux; on Linux the line "Error running ss
command: ..." when the command fails, and otherwise one line "Didn't find enough
fields in line: ..." per record-start line with fewer than 5 fields that the
scanner delivers), then exactly one header row, then exactly one row per
connection of each included process, in snapshot order; a process whose name is
unreadable, whose name does not match or whose connections fail to enumerate
adds no line. -/
theorem cycle_stdout_shape (tbl : Char → Char) (GOOS : GoString) (ss : CmdResult)
    (ps : List Process) (appName : GoString) :
    ∃ pr r, cycleStats GOOS ss = some pr ∧
      cycle tbl GOOS ss (.ok ps) appName = some r ∧ r.exited = false ∧
      r.stdout = pr.stdout ++ [headerRow] ++
        (ps.map (fun p => (processRows tbl GOOS pr.data appName p).map formatRow)).flatten ∧
      (∀ p ∈ ps, (processRows tbl GOOS pr.data appName p).length =
        match p.Name, p.Connections with
        | some name, some conns =>
          if Contains (ToLower tbl name) (ToLower tbl appName) = true then conns.length
          else 0
        | _, _ => 0) ∧
      (GOOS ≠ "linux".toList → pr.stdout = []) ∧
      (GOOS = "linux".toList → ∀ msg, ss = .failed msg →
        pr.stdout = ["Error running ss command: ".toList ++ msg ++ "\n".toList]) ∧
      (GOOS = "linux".toList → ∀ text, ss = .output text →
        pr.stdout = ((scanLines text).1.filter isShort).map
          (fun l => "Didn't find enough fields in line: ".toList ++ l ++ "\n".toList)) := by
  have hstats : ∃ pr, cycleStats GOOS ss = some pr ∧
      (GOOS ≠ "linux".toList → pr.stdout = []) ∧
      (GOOS = "linux".toList → ∀ msg, ss = .failed msg →
        pr.stdout = ["Error running ss command: ".toList ++ msg ++ "\n".toList]) ∧
      (GOOS = "linux".toList → ∀ text, ss = .output text →
        pr.stdout = ((scanLines text).1.filter isShort).map
          (fun l => "Didn't find enough fields in line: ".toList ++ l ++ "\n".toList)) := by
    by_cases hos : GOOS = "linux".toList
    · cases ss with
      | failed msg =>
        refine ⟨{ data := none, err := some (.execError msg),
                  stdout := ["Error running ss command: ".toList ++ msg ++ "\n".toList] },
          by simp only [cycleStats, if_pos hos, parseSSOutput], ?_, ?_, ?_⟩
        · exact fun h => absurd hos h
        · intro _ m hm
          cases hm
          rfl
        · intro _ text ht
          cases ht
      | output text =>
        refine ⟨{ data := some (tableFrom [] (scanLines text).1), err := (scanLines text).2,
                  stdout := diagnostics (scanLines text).1 },
          by simp only [cycleStats, if_pos hos]; exact parseSSOutput_output text,
          ?_, ?_, ?_⟩
        · exact fun h => absurd hos h
        · intro _ m hm
          cases hm
        · intro _ t ht
          cases ht
          rfl
    · refine ⟨{ data := none, err := none, stdout := [] },
        by simp only [cycleStats, if_neg hos], ?_, ?_, ?_⟩
      · exact fun _ => rfl
      · exact fun h => absurd h hos
      · exact fun h => absurd h hos
  obtain ⟨pr, h1, h2, h3, h4⟩ := hstats
  refine ⟨pr, { stdout := pr.stdout ++ [headerRow] ++
                  (cycleRows tbl GOOS pr.data appName ps).map formatRow,
                log := (match pr.err with
                  | some e => ["Warning: could not parse ss output: ".toList ++ e.Error]
                  | none => []),
                exited := false },
    h1, by simp only [cycle, h1], rfl, ?_, ?_, h2, h3, h4⟩
  · simp [cycleRows, List.map_flatten, List.map_map, Function.comp_def]
  · intro p _
    exact processRows_length tbl GOOS pr.data appName p

/-! ## Recovery from a short line -/

theorem longLine_eq : longLine = List.replicate (65535 + 1) 'a' := rfl

theorem newline_not_mem_longLine : '\n' ∉ longLine := by
  intro h
  have h2 := List.eq_of_mem_replicate h
  exact absurd h2 (by decide)

theorem byteLen_longLine : byteLen longLine = MaxScanTokenSize := byteLen_replicate _

/-- C4, as stated, fails for a line of 65536 letters, a record-start line with one
field: the text that begins with it parses to the empty table, with the error
`ErrTooLong`, and the text without it to the table of its record. -/
theorem long_short_line_stops_the_parse :
    isRecordStart longLine = true ∧ (Fields longLine).length < 5 ∧
    parseSSOutput (.output (longLine ++ '\n' :: "tcp 1 2 a:1 b:2\n".toList)) =
      some { data := some [], err := some .ErrTooLong, stdout := [] } ∧
    parseSSOutput (.output "tcp 1 2 a:1 b:2\n".toList) =
      some { data := some [("a:1->b:2".toList, ⟨"1".toList, "2".toList⟩)],
             err := none, stdout := [] } := by
  refine ⟨?_, ?_, ?_, by decide⟩
  · rw [longLine_eq]
    exact isRecordStart_replicate 65535
  · have h := Fields_replicate_length MaxScanTokenSize
    have h2 : Fields longLine = Fields (List.replicate MaxScanTokenSize 'a') := rfl
    rw [h2]
    omega
  · have hscan : scanLines (longLine ++ '\n' :: "tcp 1 2 a:1 b:2\n".toList) =
        ([], some .ErrTooLong) :=
      scanAux_tooLong longLine _ newline_not_mem_longLine
        (by rw [byteLen_longLine]) (Or.inr ⟨_, rfl⟩)
    rw [parseSSOutput_output, hscan]
    rfl

/-- C4, amended: let `L` be a record-start line with fewer than 5 fields.  Over the
lines the scanner delivers, the table parsed from a text with the lines `pre`,
`L`, `post` is the table parsed from a text with the lines `pre`, `post`.  When
`L` holds no newline and is shorter than `MaxScanTokenSize` = 65536 bytes, the
text with the line `L` inserted at the start or after any complete line is
parsed to the same table and the same error as the text without it.  `L` itself
leaves the table as it is and resets the current key, from any state; the table
after any later lines does not depend on the current key; and the loop over
lines with `L` inserted at any position builds the table of the lines without
it, from any state. -/
theorem short_line_recovery (L : GoString)
    (hL : isRecordStart L = true) (hshort : (Fields L).length < 5) :
    (∀ text1 text2 pre post, (scanLines text1).1 = pre ++ L :: post →
      (scanLines text2).1 = pre ++ post →
      ∃ t e1 e2 o1 o2,
        parseSSOutput (.output text1) = some { data := some t, err := e1, stdout := o1 } ∧
        parseSSOutput (.output text2) = some { data := some t, err := e2, stdout := o2 }) ∧
    (∀ a b, (a = [] ∨ ∃ p, a = p ++ ['\n']) → '\n' ∉ L → byteLen L < MaxScanTokenSize →
      ∃ t e o1 o2,
        parseSSOutput (.output (a ++ (L ++ '\n' :: b))) =
          some { data := some t, err := e, stdout := o1 } ∧
        parseSSOutput (.output (a ++ b)) =
          some { data := some t, err := e, stdout := o2 }) ∧
    (∀ st, ∃ s, parseLine st L = some s ∧ s.data = st.data ∧ s.currentKey = []) ∧
    (∀ (s1 s2 : ParseState) (lines : List GoString), s1.data = s2.data →
      ∃ r1 r2, parseLoop lines s1 = some r1 ∧ parseLoop lines s2 = some r2 ∧
        r1.data = r2.data) ∧
    (∀ pre post st, ∃ r1 r2, parseLoop (pre ++ L :: post) st = some r1 ∧
      parseLoop (pre ++ post) st = some r2 ∧ r1.data = r2.data) := by
  have hs : isShort L = true := by simp [isShort, hL, hshort]
  have hnot : isRecord L = false := isShort_not_isRecord L hs
  refine ⟨?_, ?_, ?_, ?_, ?_⟩
  · intro text1 text2 pre post h1 h2
    have ht : tableFrom [] (scanLines text1).1 = tableFrom [] (scanLines text2).1 := by
      rw [h1, h2, tableFrom_append, tableFrom_cons_other _ L post hnot, ← tableFrom_append]
    refine ⟨tableFrom [] (scanLines text2).1, (scanLines text1).2, (scanLines text2).2,
      diagnostics (scanLines text1).1, diagnostics (scanLines text2).1, ?_, ?_⟩
    · rw [parseSSOutput_output, ht]
    · rw [parseSSOutput_output]
  · intro a b ha hn hlen
    by_cases hnone : (scanLines a).2 = none
    · have e1 : scanLines (a ++ (L ++ '\n' :: b)) =
          ((scanLines a).1 ++ dropCR L :: (scanLines b).1, (scanLines b).2) := by
        rw [scanLines_append a _ ha, if_pos hnone, scanLines_line L b hn hlen]
      have e2 : scanLines (a ++ b) =
          ((scanLines a).1 ++ (scanLines b).1, (scanLines b).2) := by
        rw [scanLines_append a b ha, if_pos hnone]
      have ht : tableFrom [] (scanLines (a ++ (L ++ '\n' :: b))).1 =
          tableFrom [] (scanLines (a ++ b)).1 := by
        rw [e1, e2, tableFrom_append,
          tableFrom_cons_other _ (dropCR L) _ (isRecord_dropCR_of_short L hshort),
          ← tableFrom_append]
      have he : (scanLines (a ++ (L ++ '\n' :: b))).2 = (scanLines (a ++ b)).2 := by
        rw [e1, e2]
      refine ⟨tableFrom [] (scanLines (a ++ b)).1, (scanLines (a ++ b)).2,
        diagnostics (scanLines (a ++ (L ++ '\n' :: b))).1,
        diagnostics (scanLines (a ++ b)).1, ?_, ?_⟩
      · rw [parseSSOutput_output, ht, he]
      · rw [parseSSOutput_output]
    · have e1 : scanLines (a ++ (L ++ '\n' :: b)) = scanLines a := by
        rw [scanLines_append a _ ha, if_neg hnone]
      have e2 : scanLines (a ++ b) = scanLines a := by
        rw [scanLines_append a b ha, if_neg hnone]
      refine ⟨tableFrom [] (scanLines a).1, (scanLines a).2,
        diagnostics (scanLines a).1, diagnostics (scanLines a).1, ?_, ?_⟩
      · rw [parseSSOutput_output, e1]
      · rw [parseSSOutput_output, e2]
  · intro st
    exact ⟨_, parseLine_of_short st L hs, rfl, rfl⟩
  · intro s1 s2 lines hab
    obtain ⟨c1, h1⟩ := parseLoop_eq lines s1
    obtain ⟨c2, h2⟩ := parseLoop_eq lines s2
    exact ⟨_, _, h1, h2, by simp only [hab]⟩
  · intro pre post st
    obtain ⟨c1, h1⟩ := parseLoop_eq (pre ++ L :: post) st
    obtain ⟨c2, h2⟩ := parseLoop_eq (pre ++ post) st
    refine ⟨_, _, h1, h2, ?_⟩
    simp only [tableFrom_append, tableFrom_cons_other _ L post hnot]

/-- C4, amended, at the short line "bad line" inserted between the lines
"tcp 1 2 a:1 b:2" and "udp 3 4 c:3 d:4" of a text. -/
theorem short_line_recovery_witness :
    isRecordStart "bad line".toList = true ∧ (Fields "bad line".toList).length < 5 ∧
    ∃ t e o1 o2,
      parseSSOutput (.output ("tcp 1 2 a:1 b:2\n".toList ++
          ("bad line".toList ++ '\n' :: "udp 3 4 c:3 d:4\n".toList))) =
        some { data := some t, err := e, stdout := o1 } ∧
      parseSSOutput (.output ("tcp 1 2 a:1 b:2\n".toList ++ "udp 3 4 c:3 d:4\n".toList)) =
        some { data := some t, err := e, stdout := o2 } :=
  ⟨by decide, by decide,
    (short_line_recovery "bad line".toList (by decide) (by decide)).2.1
      "tcp 1 2 a:1 b:2\n".toList "udp 3 4 c:3 d:4\n".toList
      (Or.inr ⟨"tcp 1 2 a:1 b:2".toList, by decide⟩) (by decide) (by decide)⟩

end Netmon
